import Mathlib

/-!
Verification of the reduct evaluator/reader core (reduct.cpp).

The C++ source is shallowly embedded: the tagged union `class atom` becomes an
inductive type; `std::map<atom, atom>` (ordered by `operator<` on atoms) becomes
a sorted association list manipulated by `map_emplace` (modelling
`std::map::emplace`, which inserts only when no equivalent key is present) and
`map_find` (modelling `std::map::find`, which locates the key equivalent under
the ordering).  The three-way comparison `atomCmp` models `operator<` on atoms:
tag rank first (symbol < string < table < substitution, the declaration order of
`enum class atom_type`), then the payload, strings lexicographically by
character code and tables lexicographically over their pair sequences, exactly
as `std::lexicographical_compare` over `std::pair` does for a total order.
`atomBeq` models `operator==` (same tag, equal payload, tables element-wise).

Recursive C++ loops whose termination is not structural (the mutually recursive
reader, the `len` scan, `eval`) are embedded with an explicit fuel parameter
that is large enough for every actual run; lemmas below (for example the fuel
independence of `evalF`) discharge the corresponding obligations where a claim
needs them.
-/

set_option maxHeartbeats 1600000

namespace Reduct

/-- The four variants of `class atom`: `atom_type::symbol`, `::string`,
`::table`, `::substitution`.  A table's payload is its ordered pair list
(`table_values = std::map<atom, atom>` represented as a sorted association
list). -/
inductive atom where
  | symbol (s : String)
  | string (s : String)
  | table (pairs : List (atom × atom))
  | substitution (s : String)

/-- Numeric rank of the `atom_type` enum; the declaration order in the source
puts `substitution` last. -/
def atom.rank : atom → Nat
  | .symbol _ => 0
  | .string _ => 1
  | .table _ => 2
  | .substitution _ => 3

/-- The string payload of a string-like atom (`atom::get_value`).  The table
case is impossible at every call site (the source asserts `is_string_type`). -/
def atom.get_value : atom → String
  | .symbol s => s
  | .string s => s
  | .substitution s => s
  | .table _ => ""

/-- The pair list of a table atom (`atom::get_pairs`).  The non-table case is
impossible at every call site (the source asserts `is_table_type`). -/
def atom.get_pairs : atom → List (atom × atom)
  | .table ps => ps
  | _ => []

/-- Character comparison by code point; `std::string` compares characters as
unsigned bytes, which agrees with this on the ASCII inputs of the grammar. -/
def chCmp (c d : Char) : Ordering := compare c.toNat d.toNat

/-- Lexicographic comparison of character sequences, as `std::string`'s
`operator<`. -/
def charsCmp : List Char → List Char → Ordering
  | [], [] => .eq
  | [], _ :: _ => .lt
  | _ :: _, [] => .gt
  | c :: cs, d :: ds => (chCmp c d).then (charsCmp cs ds)

/-- `operator<` of `std::string`, as a three-way comparison. -/
def strCmp (s t : String) : Ordering := charsCmp s.data t.data

mutual
/-- Three-way form of `operator<` on atoms: compare the `m_type` tags first,
then the payloads (`m_value`); two string-like atoms of the same tag compare
by their strings, two tables by `std::map`'s lexicographic comparison of the
pair sequences. -/
def atomCmp : atom → atom → Ordering
  | .symbol s, .symbol t => strCmp s t
  | .string s, .string t => strCmp s t
  | .substitution s, .substitution t => strCmp s t
  | .table ps, .table qs => pairsCmp ps qs
  | a, b => compare a.rank b.rank

/-- Lexicographic comparison of pair sequences, with each `std::pair` compared
first component first. -/
def pairsCmp : List (atom × atom) → List (atom × atom) → Ordering
  | [], [] => .eq
  | [], _ :: _ => .lt
  | _ :: _, [] => .gt
  | (k1, v1) :: ps, (k2, v2) :: qs =>
    (atomCmp k1 k2).then ((atomCmp v1 v2).then (pairsCmp ps qs))
end

mutual
/-- `operator==` on atoms: same tag and equal payload, tables element-wise
over their pair sequences (`std::map::operator==`). -/
def atomBeq : atom → atom → Bool
  | .symbol s, .symbol t => s == t
  | .string s, .string t => s == t
  | .substitution s, .substitution t => s == t
  | .table ps, .table qs => pairsBeq ps qs
  | _, _ => false

/-- Element-wise equality of pair sequences. -/
def pairsBeq : List (atom × atom) → List (atom × atom) → Bool
  | [], [] => true
  | (k1, v1) :: ps, (k2, v2) :: qs => atomBeq k1 k2 && atomBeq v1 v2 && pairsBeq ps qs
  | _, _ => false
end

mutual
/-- Structural size of an atom (used only as the fuel measure of the
embedding's fueled recursions; not part of the source). -/
def atom.size : atom → Nat
  | .symbol _ => 1
  | .string _ => 1
  | .substitution _ => 1
  | .table ps => 1 + pairs_size ps

/-- Structural size of a pair list. -/
def pairs_size : List (atom × atom) → Nat
  | [] => 0
  | (k, v) :: rest => 1 + k.size + v.size + pairs_size rest
end

/-- `std::map::find` over the sorted pair list: the first (and only) entry
whose key is equivalent to `k` under the ordering. -/
def map_find (k : atom) : List (atom × atom) → Option atom
  | [] => none
  | (k1, v1) :: rest =>
    if atomCmp k k1 = .eq then some v1 else map_find k rest

/-- `std::map::emplace` over the sorted pair list: insert `(k, v)` at its
ordered position unless a key equivalent to `k` is already present, in which
case the map is unchanged. -/
def map_emplace (k v : atom) : List (atom × atom) → List (atom × atom)
  | [] => [(k, v)]
  | (k1, v1) :: rest =>
    match atomCmp k k1 with
    | .lt => (k, v) :: (k1, v1) :: rest
    | .eq => (k1, v1) :: rest
    | .gt => (k1, v1) :: map_emplace k v rest

/-- Build a `table_values` map from an initializer list, inserting the pairs in
order (as `std::map`'s initializer-list constructor does). -/
def table_of (l : List (atom × atom)) : List (atom × atom) :=
  l.foldl (fun acc kv => map_emplace kv.1 kv.2 acc) []

def make_symbol (s : String) : atom := .symbol s

def make_substitution (s : String) : atom := .substitution s

def make_string (s : String) : atom := .string s

def make_table (ps : List (atom × atom)) : atom := .table ps

def is_symbol (a : atom) : Bool := a.rank = 0

def is_string (a : atom) : Bool := a.rank = 1

def is_table (a : atom) : Bool := a.rank = 2

def is_substitution (a : atom) : Bool := a.rank = 3

-- The interned symbols of `namespace symbols`.
namespace symbols

def type : atom := make_symbol "__type"

def error : atom := make_symbol "error"

def statement : atom := make_symbol "statement"

def error_type : atom := make_symbol "__error-type"

def lookup_error : atom := make_symbol "lookup-error"

def read_error : atom := make_symbol "read-error"

def map : atom := make_symbol "map"

def key : atom := make_symbol "key"

def message : atom := make_symbol "message"

def universal_lookup_key : atom := make_symbol "universal_lookup_key"

def universal_lookup_expr : atom := make_symbol "universal_lookup_expr"

def value : atom := make_symbol "value"

def zero : atom := make_symbol "0"

def one : atom := make_symbol "1"

end symbols

/-- `make_error`: starting from the context data, emplace
`__type = error`, `__error-type = type`, `message = msg` (in that order;
`emplace` keeps an existing binding). -/
def make_error (ty : atom) (msg : String) (data : List (atom × atom)) : atom :=
  make_table (map_emplace symbols.message (make_string msg)
    (map_emplace symbols.error_type ty
      (map_emplace symbols.type symbols.error data)))

/-- `make_statement`: emplace `__type = statement` into the operand map. -/
def make_statement (atoms : List (atom × atom)) : atom :=
  make_table (map_emplace symbols.type symbols.statement atoms)

/-- `lookup(map, key)`: a lookup error if `map` is not a table or does not
contain `key`; otherwise the associated value. -/
def lookup (m k : atom) : atom :=
  if !is_table m then
    make_error symbols.lookup_error "Expected a table for lookup"
      (table_of [(symbols.map, m), (symbols.key, k)])
  else
    match map_find k m.get_pairs with
    | some v => v
    | none =>
      make_error symbols.lookup_error "Could not find key in table"
        (table_of [(symbols.map, m), (symbols.key, k)])

/-- `lookup_eq(a, key, rhs)`: `a` is a table and `lookup(a, key) == rhs`. -/
def lookup_eq (a k rhs : atom) : Bool :=
  is_table a && atomBeq (lookup a k) rhs

def is_statement (a : atom) : Bool := lookup_eq a symbols.type symbols.statement

def is_error (a : atom) : Bool := lookup_eq a symbols.type symbols.error

/-- The decimal digit characters of `std::to_string`, most significant first;
structural fuel stands in for the division-based loop (with fuel at least one
more than the number of digits the result is exact, see `nat_to_chars_spec`
style lemmas below). -/
def digit_char (d : Nat) : Char := Char.ofNat (48 + d)

def nat_to_chars : Nat → Nat → List Char → List Char
  | 0, _, acc => acc
  | fuel + 1, n, acc =>
    if n < 10 then digit_char n :: acc
    else nat_to_chars fuel (n / 10) (digit_char (n % 10) :: acc)

/-- `std::to_string` on a natural number. -/
def nat_to_string (n : Nat) : String := String.mk (nat_to_chars (n + 1) n [])

/-- The scan loop of `len`: count consecutive integer-string keys starting at
`n` until a lookup fails.  A table with `p` pairs cannot contain all of the
distinct keys `"0" … "p"`, so the first missing index is at most `p` and fuel
`p + 1` never runs out. -/
def len_loop (a : atom) : Nat → Nat → Nat
  | 0, n => n
  | fuel + 1, n =>
    if is_error (lookup a (make_symbol (nat_to_string n))) then n
    else len_loop a fuel (n + 1)

/-- `len(a)`: the number of consecutive integer-string keys `"0", "1", …`
present in `a`. -/
def len (a : atom) : Nat := len_loop a (a.get_pairs.length + 1) 0

/-- `atom::get_universal_lookup_pair`: the first pair whose key is a
substitution, if any (`std::find_if`). -/
def get_universal_lookup_pair (a : atom) : Option (atom × atom) :=
  a.get_pairs.find? (fun kv => is_substitution kv.1)

/-- The substitution closure `fn_substitute` inside `universal_lookup`: a
substitution different from the universal-lookup key is a lookup error;
the universal-lookup key itself is replaced by `key`; anything else is
returned unchanged. -/
def fn_substitute (m k ul_key a : atom) : atom :=
  if is_substitution a && !atomBeq ul_key a then
    make_error symbols.lookup_error "Mismatch between substitution key and expression"
      (table_of [(symbols.map, m), (symbols.key, k),
                 (symbols.universal_lookup_key, ul_key), (symbols.value, a)])
  else if atomBeq a ul_key then k else a

/-- `universal_lookup(map, key)`: no pattern entry is a lookup error; a
non-statement template is substituted directly; a statement template has
`fn_substitute` applied to each of its positional elements and is re-tagged
as a statement. -/
def universal_lookup (m k : atom) : atom :=
  match get_universal_lookup_pair m with
  | none =>
    make_error symbols.lookup_error "Could not find key in table"
      (table_of [(symbols.map, m), (symbols.key, k)])
  | some (ul_key, ul_expr) =>
    if !is_statement ul_expr then fn_substitute m k ul_key ul_expr
    else
      make_statement ((List.range (len ul_expr)).foldl
        (fun acc i =>
          map_emplace (make_symbol (nat_to_string i))
            (fn_substitute m k ul_key (lookup ul_expr (make_symbol (nat_to_string i)))) acc)
        [])

/-- One reduction step (`eval`), with structural fuel standing in for the
recursion on lookup results; `evalF_fuel_irrelevant` below shows that any fuel
above the structural size of the argument gives the same result, so `eval`
(defined with such a fuel) is the function computed by the source. -/
def evalF : Nat → atom → atom
  | 0, expr => expr
  | fuel + 1, expr =>
    -- non-statement evals to itself
    if !is_statement expr then expr
    else
      let expr_len := len expr
      -- statement of length one returns eval of its item
      if expr_len = 1 then evalF fuel (lookup expr symbols.zero)
      else
        -- statement of more than one item performs a lookup
        let m := evalF fuel (lookup expr symbols.zero)
        let k := evalF fuel (lookup expr symbols.one)
        let result0 := lookup m k
        -- specific lookup failed, try universal lookup
        let result := if is_error result0 && is_table m then universal_lookup m k else result0
        if expr_len = 2 || is_error result then result
        else
          -- begin a new expression with the result, followed by the rest of the
          -- original statement minus the map and key
          make_statement ((List.range' 2 (expr_len - 2)).foldl
            (fun acc n =>
              map_emplace (make_symbol (nat_to_string (n - 1)))
                (lookup expr (make_symbol (nat_to_string n))) acc)
            (map_emplace symbols.zero result []))

/-- `eval(expr)`: one reduction step. -/
def eval (expr : atom) : atom := evalF (expr.size + 2) expr

/-- `is_symbol_char`: `isalnum` (ASCII, the default C locale) or one of the
listed punctuation characters. -/
def is_symbol_char (c : Char) : Bool :=
  (48 ≤ c.toNat && c.toNat ≤ 57) || (65 ≤ c.toNat && c.toNat ≤ 90) ||
  (97 ≤ c.toNat && c.toNat ≤ 122) ||
  c = '_' || c = '!' || c = '?' || c = '+' || c = '-' || c = '*' || c = '/' || c = '%'

/-- `isspace` of the default C locale on ASCII: space, tab, newline, vertical
tab, form feed, carriage return. -/
def is_space (c : Char) : Bool := c.toNat = 32 || (9 ≤ c.toNat && c.toNat ≤ 13)

/-- `skip_ws`: drop leading whitespace. -/
def skip_ws : List Char → List Char
  | [] => []
  | c :: rest => if is_space c then skip_ws rest else c :: rest

/-- `read_symbol`: the maximal run of symbol characters. -/
def read_symbol (si : List Char) : List Char × atom :=
  let p := si.span is_symbol_char
  (p.2, make_symbol (String.mk p.1))

/-- `read_substitution`: skip the leading dollar sign, then the maximal run of
symbol characters. -/
def read_substitution (si : List Char) : List Char × atom :=
  let p := (si.drop 1).span is_symbol_char
  (p.2, make_substitution (String.mk p.1))

/-- The single-quote character (39). -/
def quote1 : Char := Char.ofNat 39

/-- The opening brace character (123). -/
def brace_open : Char := Char.ofNat 123

/-- The closing brace character (125). -/
def brace_close : Char := Char.ofNat 125

/-- The scan loop of `read_string`: accumulate characters until the closing
quote; a backslash passes the next character through literally; end of input
before the closing quote is a read error. -/
def read_string_loop (q : Char) : List Char → List Char → List Char × atom
  | [], _ =>
    ([], make_error symbols.read_error "Unexpected eof while reading string" [])
  | c :: rest, acc =>
    if c = '\\' then
      match rest with
      | [] => ([], make_error symbols.read_error "Unexpected eof while reading string" [])
      | d :: rest2 => read_string_loop q rest2 (acc ++ [d])
    else if c = q then (rest, make_string (String.mk acc))
    else read_string_loop q rest (acc ++ [c])

/-- `read_string`: the first character is the quote character; scan to its
match.  The empty case is impossible at the call site (`read_atom` dispatches
on the first character). -/
def read_string (si : List Char) : List Char × atom :=
  match si with
  | [] => ([], make_error symbols.read_error "Unexpected eof while reading string" [])
  | q :: rest => read_string_loop q rest []

/-- The eof error of `read_table`. -/
def table_eof_error : atom :=
  make_error symbols.read_error "Unexpected eof while reading table" []

/-- The error returned by the fueled reader when its fuel runs out.  The fuel
passed by `read` (see `read_fuel`) exceeds the number of recursive calls any
input of that length can cause, so this error never escapes from `read`; it is
an error atom so that, were it ever produced, it would surface rather than be
mistaken for a successful parse. -/
def fuel_error : atom := make_error symbols.read_error "Reader out of fuel" []

/-- The character under the iterator, as a string (for error messages).  The
empty case is unreachable at every use (the source dereferences the
iterator). -/
def head_str : List Char → String
  | [] => ""
  | c :: _ => String.singleton c

mutual
/-- `read_atom`: skip whitespace, then dispatch on the first character: a
symbol character starts a symbol, a dollar sign a substitution, a quote a
string, an opening brace a table; anything else (or end of input) is not an
atom. -/
def read_atom (fuel : Nat) (si : List Char) : List Char × Option atom :=
  match fuel with
  | 0 => (si, some fuel_error)
  | fuel + 1 =>
    match skip_ws si with
    | [] => ([], none)
    | c :: rest =>
      if is_symbol_char c then
        let p := read_symbol (c :: rest)
        (p.1, some p.2)
      else if c = '$' then
        let p := read_substitution (c :: rest)
        (p.1, some p.2)
      else if c = '"' || c = quote1 then
        let p := read_string (c :: rest)
        (p.1, some p.2)
      else if c = brace_open then
        let p := read_table fuel (c :: rest)
        (p.1, some p.2)
      else
        (c :: rest, none)

/-- `read_table`: skip the opening brace (asserted by the source) and scan
entries. -/
def read_table (fuel : Nat) (si : List Char) : List Char × atom :=
  match fuel with
  | 0 => (si, fuel_error)
  | fuel + 1 => read_table_loop fuel [] false (si.drop 1)

/-- The entry loop of `read_table`: each iteration reads a key atom, requires
an equals sign, reads a value statement, emplaces the pair (so an existing
equivalent key is left unchanged), and optionally consumes a comma.  A second
substitution key, an unexpected character, or end of input are read errors. -/
def read_table_loop (fuel : Nat) (values : List (atom × atom)) (has_sub : Bool)
    (si : List Char) : List Char × atom :=
  match fuel with
  | 0 => (si, fuel_error)
  | fuel + 1 =>
    match skip_ws si with
    | [] => ([], table_eof_error)
    | c :: rest =>
      if c = brace_close then (rest, make_table values)
      else
        match read_atom fuel (c :: rest) with
        | (si2, none) =>
          (si2, make_error symbols.read_error
            ("Unexpected character '" ++ head_str si2 ++ "'") [])
        | (si2, some key) =>
          if is_substitution key && has_sub then
            (si2, make_error symbols.read_error
              "Table has more than one universal substitution." [])
          else
            let has_sub2 := has_sub || is_substitution key
            match skip_ws si2 with
            | [] => ([], table_eof_error)
            | c2 :: rest2 =>
              if c2 = '=' then
                match read_statement fuel rest2 with
                | (si4, value) =>
                  if is_error value then (si4, value)
                  else
                    let values2 := map_emplace key value values
                    match skip_ws si4 with
                    | [] => ([], table_eof_error)
                    | c3 :: rest3 =>
                      read_table_loop fuel values2 has_sub2
                        (if c3 = ',' then rest3 else c3 :: rest3)
              else
                (c2 :: rest2, make_error symbols.read_error
                  ("Unexpected character '" ++ String.singleton c2 ++ "' (expected '=')") [])

/-- `read_statement`: read a maximal sequence of atoms. -/
def read_statement (fuel : Nat) (si : List Char) : List Char × atom :=
  match fuel with
  | 0 => (si, fuel_error)
  | fuel + 1 => read_statement_loop fuel [] 0 si

/-- The atom loop of `read_statement`: read atoms while possible, numbering
them `"0", "1", …`; no atom at all is a read error, a single atom is unwrapped,
otherwise the collected map becomes a statement; a read error in an atom
propagates. -/
def read_statement_loop (fuel : Nat) (values : List (atom × atom)) (n : Nat)
    (si : List Char) : List Char × atom :=
  match fuel with
  | 0 => (si, fuel_error)
  | fuel + 1 =>
    match read_atom fuel si with
    | (si2, none) =>
      if values.isEmpty then
        (si2, make_error symbols.read_error "Expected a statement" [])
      else if n = 1 then
        (si2, (map_find symbols.zero values).getD (make_symbol ""))
      else
        (si2, make_statement values)
    | (si2, some a) =>
      if is_error a then (si2, a)
      else read_statement_loop fuel (map_emplace (make_symbol (nat_to_string n)) a values)
        (n + 1) si2
end

/-- Fuel passed to the reader by `read`: every recursive call either consumes
input or moves to a strictly smaller phase, so the call count is linearly
bounded by the input length; this bound is far above it. -/
def read_fuel (cs : List Char) : Nat := 8 * cs.length + 16

/-- `read(input)`: a non-string input is returned unchanged; otherwise parse a
top-level statement and then require the rest of the input to be empty
(whitespace having been consumed by the reader). -/
def read (input : atom) : atom :=
  if !is_string input then input
  else
    let cs := input.get_value.data
    let p := read_statement (read_fuel cs) cs
    if !is_error p.2 && !p.1.isEmpty then
      make_error symbols.read_error ("Unexpected character '" ++ head_str p.1 ++ "'") []
    else p.2

/-- Outcome of the driver loop of `repl`: a final non-statement value, the
infinite-loop bail-out, or fuel exhaustion of the embedding. -/
inductive driver_result where
  | value (a : atom)
  | infinite_loop
  | out_of_fuel

/-- The reduction loop of `repl`: while the value is a statement, take one
`eval` step; if the step result was already seen, report the infinite loop;
otherwise record it and continue.  `known_states` models the `std::set` of
previously produced values (membership by order-equivalence, which for this
structural order coincides with `operator==`); `fuel` bounds the number of
`eval` steps the embedding may take. -/
def repl_loop (fuel : Nat) (value : atom) (known_states : List atom) : driver_result :=
  match fuel with
  | 0 => .out_of_fuel
  | fuel + 1 =>
    if !is_statement value then .value value
    else
      let v2 := eval value
      if known_states.any (fun s => atomCmp v2 s = .eq) then .infinite_loop
      else repl_loop fuel v2 (v2 :: known_states)

/-- Specification-side observation (not from the source): the sequence of
atoms `read_statement_loop` consumes from `si`, in read order, stopping where
the loop stops (no further atom, or a read-error atom).  Used to state the
packing behaviour of the statement reader. -/
def read_atom_list (fuel : Nat) (si : List Char) : List atom :=
  match fuel with
  | 0 => []
  | fuel + 1 =>
    match read_atom fuel si with
    | (_, none) => []
    | (si2, some a) => if is_error a then [] else a :: read_atom_list fuel si2

/-- Specification-side observation (not from the source): emplacing a list of
atoms under the consecutive integer-string keys starting at `n`, as the
statement reader's accumulator does. -/
def emplace_atoms (values : List (atom × atom)) (n : Nat) : List atom → List (atom × atom)
  | [] => values
  | a :: rest => emplace_atoms (map_emplace (make_symbol (nat_to_string n)) a values) (n + 1) rest

/-- Specification-side observation (not from the source): the numeric value of
a decimal digit string, used to invert `nat_to_string`. -/
def chars_val (cs : List Char) : Nat := cs.foldl (fun a c => 10 * a + (c.toNat - 48)) 0

/-- The lookup phase of one `eval` step: the direct `lookup(map, key)`,
replaced by `universal_lookup(map, key)` when it produced an error and the map
is a table (the body of `eval` between the two lookups and the length test). -/
def step_lookup (m k : atom) : atom :=
  let result := lookup m k
  if is_error result && is_table m then universal_lookup m k else result

/-- The classic self-reproducing statement: `(d d)` for
`d = \x7b$x = $x $x\x7d`; one eval step maps it to itself, giving a concrete
cycle for the driver loop. -/
def omega_stmt : atom :=
  read (make_string "\x7b$x = $x $x\x7d \x7b$x = $x $x\x7d")

/-- A user-constructed table carrying `__type = error` without having been
produced by any failed operation. -/
def user_error_table : atom := read (make_string "\x7b__type = error\x7d")

/-- A pattern map whose template statement contains a substitution different
from the wildcard: `\x7b$x = $y z\x7d`. -/
def mismatch_map : atom := read (make_string "\x7b$x = $y z\x7d")

/-- The statement applying `mismatch_map` to the symbol `foo`. -/
def mismatch_stmt : atom := read (make_string "\x7b$x = $y z\x7d foo")

/-- A pattern map whose template is a single substitution different from the
wildcard: `\x7b$x = $y\x7d`. -/
def mismatch_single_stmt : atom := read (make_string "\x7b$x = $y\x7d foo")

/-- The chaining example `(m1 k j)` with `m1 = \x7bk = \x7bj = done\x7d\x7d`. -/
def chain_stmt : atom := read (make_string "\x7bk = \x7bj = done\x7d\x7d k j")

/-! ### Foundations: the structural order and equality -/

theorem chCmp_eq_iff (c d : Char) : chCmp c d = .eq ↔ c = d := by
  unfold chCmp
  rw [Nat.compare_eq_eq]
  constructor
  · intro h; exact Char.eq_of_val_eq (UInt32.toNat.inj h)
  · intro h; rw [h]

theorem charsCmp_eq_iff : ∀ (cs ds : List Char), charsCmp cs ds = .eq ↔ cs = ds := by
  intro cs
  induction cs with
  | nil => intro ds; cases ds <;> simp [charsCmp]
  | cons c cs ih =>
    intro ds
    cases ds with
    | nil => simp [charsCmp]
    | cons d ds => simp [charsCmp, Ordering.then_eq_eq, chCmp_eq_iff, ih]

theorem strCmp_eq_iff (s t : String) : strCmp s t = .eq ↔ s = t := by
  unfold strCmp
  rw [charsCmp_eq_iff]
  constructor
  · intro h; cases s; cases t; simp_all
  · intro h; rw [h]

theorem atom.size_pos (a : atom) : 0 < a.size := by
  cases a <;> simp [atom.size]

theorem size_lt_of_mem {k v : atom} {ps : List (atom × atom)} (h : (k, v) ∈ ps) :
    k.size + v.size < (atom.table ps).size := by
  simp only [atom.size]
  induction ps with
  | nil => cases h
  | cons p rest ih =>
    obtain ⟨k1, v1⟩ := p
    rcases List.mem_cons.mp h with h1 | h1
    · cases h1
      simp only [pairs_size]
      omega
    · have := ih h1
      simp only [pairs_size]
      omega

theorem pairsCmp_eq_iff_aux :
    ∀ (ps qs : List (atom × atom)),
      (∀ k v, (k, v) ∈ ps →
        (∀ b, atomCmp k b = .eq ↔ k = b) ∧ (∀ b, atomCmp v b = .eq ↔ v = b)) →
      (pairsCmp ps qs = .eq ↔ ps = qs) := by
  intro ps
  induction ps with
  | nil => intro qs _; cases qs <;> simp [pairsCmp]
  | cons p ps ih =>
    intro qs hmem
    obtain ⟨k, v⟩ := p
    cases qs with
    | nil => simp [pairsCmp]
    | cons q qs =>
      obtain ⟨k2, v2⟩ := q
      have hk := (hmem k v (by simp)).1 k2
      have hv := (hmem k v (by simp)).2 v2
      have hrest := ih qs (fun k v h => hmem k v (List.mem_cons_of_mem _ h))
      simp [pairsCmp, Ordering.then_eq_eq, hk, hv, hrest, and_assoc]

theorem atomCmp_eq_iff : ∀ (a b : atom), atomCmp a b = .eq ↔ a = b := by
  suffices h : ∀ (N : Nat) (a b : atom), a.size ≤ N → (atomCmp a b = .eq ↔ a = b) by
    intro a b; exact h a.size a b le_rfl
  intro N
  induction N with
  | zero => intro a b ha; exact absurd ha (by have := atom.size_pos a; omega)
  | succ N ih =>
    intro a b ha
    cases a with
    | symbol s => cases b <;> simp [atomCmp, strCmp_eq_iff, atom.rank] <;> decide
    | string s => cases b <;> simp [atomCmp, strCmp_eq_iff, atom.rank] <;> decide
    | substitution s => cases b <;> simp [atomCmp, strCmp_eq_iff, atom.rank] <;> decide
    | table ps =>
      cases b with
      | table qs =>
        have helem : ∀ k v, (k, v) ∈ ps →
            (∀ b, atomCmp k b = .eq ↔ k = b) ∧ (∀ b, atomCmp v b = .eq ↔ v = b) := by
          intro k v hkv
          have hsz := size_lt_of_mem hkv
          have hkpos := atom.size_pos k
          have hvpos := atom.size_pos v
          exact ⟨fun b => ih k b (by omega), fun b => ih v b (by omega)⟩
        simpa [atomCmp] using pairsCmp_eq_iff_aux ps qs helem
      | symbol t => simp [atomCmp, atom.rank] <;> decide
      | string t => simp [atomCmp, atom.rank] <;> decide
      | substitution t => simp [atomCmp, atom.rank] <;> decide

theorem atomCmp_refl (a : atom) : atomCmp a a = .eq := (atomCmp_eq_iff a a).mpr rfl

theorem pairsBeq_iff_aux :
    ∀ (ps qs : List (atom × atom)),
      (∀ k v, (k, v) ∈ ps →
        (∀ b, atomBeq k b = true ↔ k = b) ∧ (∀ b, atomBeq v b = true ↔ v = b)) →
      (pairsBeq ps qs = true ↔ ps = qs) := by
  intro ps
  induction ps with
  | nil => intro qs _; cases qs <;> simp [pairsBeq]
  | cons p ps ih =>
    intro qs hmem
    obtain ⟨k, v⟩ := p
    cases qs with
    | nil => simp [pairsBeq]
    | cons q qs =>
      obtain ⟨k2, v2⟩ := q
      have hk := (hmem k v (by simp)).1 k2
      have hv := (hmem k v (by simp)).2 v2
      have hrest := ih qs (fun k v h => hmem k v (List.mem_cons_of_mem _ h))
      simp [pairsBeq, hk, hv, hrest, and_assoc]

theorem atomBeq_iff : ∀ (a b : atom), atomBeq a b = true ↔ a = b := by
  suffices h : ∀ (N : Nat) (a b : atom), a.size ≤ N → (atomBeq a b = true ↔ a = b) by
    intro a b; exact h a.size a b le_rfl
  intro N
  induction N with
  | zero => intro a b ha; exact absurd ha (by have := atom.size_pos a; omega)
  | succ N ih =>
    intro a b ha
    cases a with
    | symbol s => cases b <;> simp [atomBeq]
    | string s => cases b <;> simp [atomBeq]
    | substitution s => cases b <;> simp [atomBeq]
    | table ps =>
      cases b with
      | table qs =>
        have helem : ∀ k v, (k, v) ∈ ps →
            (∀ b, atomBeq k b = true ↔ k = b) ∧ (∀ b, atomBeq v b = true ↔ v = b) := by
          intro k v hkv
          have hsz := size_lt_of_mem hkv
          have hkpos := atom.size_pos k
          have hvpos := atom.size_pos v
          exact ⟨fun b => ih k b (by omega), fun b => ih v b (by omega)⟩
        simpa [atomBeq] using pairsBeq_iff_aux ps qs helem
      | symbol t => simp [atomBeq]
      | string t => simp [atomBeq]
      | substitution t => simp [atomBeq]

theorem atomBeq_refl (a : atom) : atomBeq a a = true := (atomBeq_iff a a).mpr rfl

instance atom.decEq : DecidableEq atom :=
  fun a b => decidable_of_iff (atomBeq a b = true) (atomBeq_iff a b)

/-! ### Map operation lemmas -/

theorem map_find_cons (k k1 v1 : atom) (rest : List (atom × atom)) :
    map_find k ((k1, v1) :: rest) = if k = k1 then some v1 else map_find k rest := by
  by_cases h : k = k1 <;> simp [map_find, atomCmp_eq_iff, h]

theorem map_find_emplace_self (k v : atom) :
    ∀ (l : List (atom × atom)), map_find k l = none →
      map_find k (map_emplace k v l) = some v := by
  intro l
  induction l with
  | nil => intro _; simp [map_emplace, map_find, atomCmp_refl]
  | cons p rest ih =>
    obtain ⟨k1, v1⟩ := p
    intro h
    rw [map_find_cons] at h
    by_cases hk : k = k1
    · simp [hk] at h
    · simp only [hk, if_false] at h
      have hcmp : atomCmp k k1 ≠ .eq := fun hc => hk ((atomCmp_eq_iff k k1).mp hc)
      rcases hor : atomCmp k k1 with _ | _ | _
      · simp [map_emplace, hor, map_find, atomCmp_refl]
      · exact absurd hor hcmp
      · simp only [map_emplace, hor]
        rw [map_find_cons, if_neg hk]
        exact ih h

theorem map_find_emplace_ne (k k1 v1 : atom) (h : k ≠ k1) :
    ∀ (l : List (atom × atom)), map_find k (map_emplace k1 v1 l) = map_find k l := by
  have hcmp : ¬ atomCmp k k1 = .eq := fun hc => h ((atomCmp_eq_iff k k1).mp hc)
  intro l
  induction l with
  | nil => simp [map_emplace, map_find, hcmp]
  | cons p rest ih =>
    obtain ⟨k2, v2⟩ := p
    rcases hor : atomCmp k1 k2 with _ | _ | _
    · simp only [map_emplace, hor]
      simp [map_find, hcmp]
    · simp only [map_emplace, hor]
    · simp only [map_emplace, hor]
      rw [map_find_cons, map_find_cons]
      by_cases hk2 : k = k2
      · simp [hk2]
      · simp [hk2, ih]

theorem map_emplace_length_of_none (k v : atom) :
    ∀ (l : List (atom × atom)), map_find k l = none →
      (map_emplace k v l).length = l.length + 1 := by
  intro l
  induction l with
  | nil => intro _; simp [map_emplace]
  | cons p rest ih =>
    obtain ⟨k1, v1⟩ := p
    intro h
    rw [map_find_cons] at h
    by_cases hk : k = k1
    · simp [hk] at h
    · simp only [hk, if_false] at h
      rcases hor : atomCmp k k1 with _ | _ | _ <;> simp only [map_emplace, hor]
      · simp
      · exact absurd ((atomCmp_eq_iff k k1).mp hor) hk
      · simp [ih h]

/-! ### The order is a total order: swap and transitivity -/

theorem natCmp_swap (m n : Nat) : compare n m = (compare m n).swap := by
  rcases Nat.lt_trichotomy m n with h | h | h
  · rw [Nat.compare_eq_gt.mpr h, Nat.compare_eq_lt.mpr h]; rfl
  · rw [h, Nat.compare_eq_eq.mpr rfl]; rfl
  · rw [Nat.compare_eq_lt.mpr h, Nat.compare_eq_gt.mpr h]; rfl

theorem chCmp_swap (c d : Char) : chCmp d c = (chCmp c d).swap := natCmp_swap _ _

theorem chCmp_trans {a b c : Char} (h1 : chCmp a b = .lt) (h2 : chCmp b c = .lt) :
    chCmp a c = .lt :=
  Nat.compare_eq_lt.mpr (Nat.lt_trans (Nat.compare_eq_lt.mp h1) (Nat.compare_eq_lt.mp h2))

theorem charsCmp_swap : ∀ (cs ds : List Char), charsCmp ds cs = (charsCmp cs ds).swap := by
  intro cs
  induction cs with
  | nil => intro ds; cases ds <;> rfl
  | cons c cs ih =>
    intro ds
    cases ds with
    | nil => rfl
    | cons d ds =>
      simp only [charsCmp]
      rw [Ordering.swap_then, ← chCmp_swap, ← ih ds]

theorem strCmp_swap (s t : String) : strCmp t s = (strCmp s t).swap := charsCmp_swap _ _

theorem charsCmp_trans : ∀ (cs ds es : List Char),
    charsCmp cs ds = .lt → charsCmp ds es = .lt → charsCmp cs es = .lt := by
  intro cs
  induction cs with
  | nil =>
    intro ds es h1 h2
    cases ds with
    | nil => simp [charsCmp] at h1
    | cons d ds =>
      cases es with
      | nil => simp [charsCmp] at h2
      | cons e es => simp [charsCmp]
  | cons c cs ih =>
    intro ds es h1 h2
    cases ds with
    | nil => simp [charsCmp] at h1
    | cons d ds =>
      cases es with
      | nil => simp [charsCmp] at h2
      | cons e es =>
        simp only [charsCmp, Ordering.then_eq_lt] at h1 h2 ⊢
        rcases h1 with h1 | ⟨h1e, h1r⟩
        · rcases h2 with h2 | ⟨h2e, h2r⟩
          · exact Or.inl (chCmp_trans h1 h2)
          · have hde : d = e := (chCmp_eq_iff d e).mp h2e
            subst hde
            exact Or.inl h1
        · have hcd : c = d := (chCmp_eq_iff c d).mp h1e
          subst hcd
          rcases h2 with h2 | ⟨h2e, h2r⟩
          · exact Or.inl h2
          · have hde : c = e := (chCmp_eq_iff c e).mp h2e
            subst hde
            exact Or.inr ⟨(chCmp_eq_iff c c).mpr rfl, ih ds es h1r h2r⟩

theorem strCmp_trans {s t u : String} (h1 : strCmp s t = .lt) (h2 : strCmp t u = .lt) :
    strCmp s u = .lt := charsCmp_trans _ _ _ h1 h2

theorem pairsCmp_swap_aux :
    ∀ (ps qs : List (atom × atom)),
      (∀ k v, (k, v) ∈ ps →
        (∀ b, atomCmp b k = (atomCmp k b).swap) ∧ (∀ b, atomCmp b v = (atomCmp v b).swap)) →
      pairsCmp qs ps = (pairsCmp ps qs).swap := by
  intro ps
  induction ps with
  | nil => intro qs _; cases qs <;> rfl
  | cons p ps ih =>
    intro qs hmem
    obtain ⟨k, v⟩ := p
    cases qs with
    | nil => rfl
    | cons q qs =>
      obtain ⟨k2, v2⟩ := q
      have hk := (hmem k v (by simp)).1 k2
      have hv := (hmem k v (by simp)).2 v2
      have hrest := ih qs (fun k v h => hmem k v (List.mem_cons_of_mem _ h))
      simp [pairsCmp, Ordering.swap_then, hk, hv, hrest]

theorem atomCmp_swap : ∀ (a b : atom), atomCmp b a = (atomCmp a b).swap := by
  suffices h : ∀ (N : Nat) (a b : atom), a.size ≤ N → atomCmp b a = (atomCmp a b).swap by
    intro a b; exact h a.size a b le_rfl
  intro N
  induction N with
  | zero => intro a b ha; exact absurd ha (by have := atom.size_pos a; omega)
  | succ N ih =>
    intro a b ha
    cases a with
    | symbol s =>
      cases b with
      | symbol t => simpa only [atomCmp] using strCmp_swap s t
      | string t => rfl
      | table qs => rfl
      | substitution t => rfl
    | string s =>
      cases b with
      | symbol t => rfl
      | string t => simpa only [atomCmp] using strCmp_swap s t
      | table qs => rfl
      | substitution t => rfl
    | substitution s =>
      cases b with
      | symbol t => rfl
      | string t => rfl
      | table qs => rfl
      | substitution t => simpa only [atomCmp] using strCmp_swap s t
    | table ps =>
      cases b with
      | table qs =>
        have helem : ∀ k v, (k, v) ∈ ps →
            (∀ b, atomCmp b k = (atomCmp k b).swap) ∧ (∀ b, atomCmp b v = (atomCmp v b).swap) := by
          intro k v hkv
          have hsz := size_lt_of_mem hkv
          have hkpos := atom.size_pos k
          have hvpos := atom.size_pos v
          exact ⟨fun b => ih k b (by omega), fun b => ih v b (by omega)⟩
        simpa [atomCmp] using pairsCmp_swap_aux ps qs helem
      | symbol t => rfl
      | string t => rfl
      | substitution t => rfl

theorem atomCmp_gt_iff (a b : atom) : atomCmp a b = .gt ↔ atomCmp b a = .lt := by
  rw [atomCmp_swap b a]
  rcases h : atomCmp b a with _ | _ | _ <;> decide

theorem atomCmp_rank_ne {a b : atom} (h : a.rank ≠ b.rank) :
    atomCmp a b = compare a.rank b.rank := by
  cases a <;> cases b <;> first | rfl | (exact absurd rfl h)

theorem atomCmp_lt_rank_le {a b : atom} (h : atomCmp a b = .lt) : a.rank ≤ b.rank := by
  by_cases hr : a.rank = b.rank
  · omega
  · rw [atomCmp_rank_ne hr] at h
    have := Nat.compare_eq_lt.mp h
    omega

theorem pairsCmp_trans_aux :
    ∀ (ps qs rs : List (atom × atom)),
      (∀ k v, (k, v) ∈ ps →
        (∀ b c, atomCmp k b = .lt → atomCmp b c = .lt → atomCmp k c = .lt) ∧
        (∀ b c, atomCmp v b = .lt → atomCmp b c = .lt → atomCmp v c = .lt)) →
      pairsCmp ps qs = .lt → pairsCmp qs rs = .lt → pairsCmp ps rs = .lt := by
  intro ps
  induction ps with
  | nil =>
    intro qs rs _ h1 h2
    cases qs with
    | nil => simp [pairsCmp] at h1
    | cons q qs =>
      cases rs with
      | nil => simp [pairsCmp] at h2
      | cons r rs => simp [pairsCmp]
  | cons p ps ih =>
    intro qs rs hmem h1 h2
    obtain ⟨k, v⟩ := p
    cases qs with
    | nil => simp [pairsCmp] at h1
    | cons q qs =>
      obtain ⟨k2, v2⟩ := q
      cases rs with
      | nil => simp [pairsCmp] at h2
      | cons r rs =>
        obtain ⟨k3, v3⟩ := r
        have hktrans := (hmem k v (by simp)).1
        have hvtrans := (hmem k v (by simp)).2
        have hrest := ih qs rs (fun k v h => hmem k v (List.mem_cons_of_mem _ h))
        simp only [pairsCmp, Ordering.then_eq_lt] at h1 h2 ⊢
        rcases h1 with h1 | ⟨h1e, h1r⟩
        · rcases h2 with h2 | ⟨h2e, h2r⟩
          · exact Or.inl (hktrans k2 k3 h1 h2)
          · have : k2 = k3 := (atomCmp_eq_iff k2 k3).mp h2e
            subst this
            exact Or.inl h1
        · have : k = k2 := (atomCmp_eq_iff k k2).mp h1e
          subst this
          rcases h2 with h2 | ⟨h2e, h2r⟩
          · exact Or.inl h2
          · have : k = k3 := (atomCmp_eq_iff k k3).mp h2e
            subst this
            refine Or.inr ⟨atomCmp_refl k, ?_⟩
            rcases h1r with h1r | ⟨h1re, h1rr⟩
            · rcases h2r with h2r | ⟨h2re, h2rr⟩
              · exact Or.inl (hvtrans v2 v3 h1r h2r)
              · have : v2 = v3 := (atomCmp_eq_iff v2 v3).mp h2re
                subst this
                exact Or.inl h1r
            · have : v = v2 := (atomCmp_eq_iff v v2).mp h1re
              subst this
              rcases h2r with h2r | ⟨h2re, h2rr⟩
              · exact Or.inl h2r
              · have : v = v3 := (atomCmp_eq_iff v v3).mp h2re
                subst this
                exact Or.inr ⟨atomCmp_refl v, hrest h1rr h2rr⟩

theorem atomCmp_trans : ∀ (a b c : atom),
    atomCmp a b = .lt → atomCmp b c = .lt → atomCmp a c = .lt := by
  suffices h : ∀ (N : Nat) (a b c : atom), a.size ≤ N →
      atomCmp a b = .lt → atomCmp b c = .lt → atomCmp a c = .lt by
    intro a b c; exact h a.size a b c le_rfl
  intro N
  induction N with
  | zero => intro a b c ha; exact absurd ha (by have := atom.size_pos a; omega)
  | succ N ih =>
    intro a b c ha h1 h2
    by_cases hac : a.rank = c.rank
    · have hab : a.rank = b.rank := by
        have l1 := atomCmp_lt_rank_le h1
        have l2 := atomCmp_lt_rank_le h2
        omega
      have hbc : b.rank = c.rank := by rw [← hab, hac]
      -- equal ranks force equal constructors
      cases a with
      | symbol s =>
        cases b with
        | symbol t =>
          cases c with
          | symbol u => simpa [atomCmp] using strCmp_trans (by simpa [atomCmp] using h1) (by simpa [atomCmp] using h2)
          | _ => simp [atom.rank] at hbc
        | _ => simp [atom.rank] at hab
      | string s =>
        cases b with
        | string t =>
          cases c with
          | string u => simpa [atomCmp] using strCmp_trans (by simpa [atomCmp] using h1) (by simpa [atomCmp] using h2)
          | _ => simp [atom.rank] at hbc
        | _ => simp [atom.rank] at hab
      | substitution s =>
        cases b with
        | substitution t =>
          cases c with
          | substitution u => simpa [atomCmp] using strCmp_trans (by simpa [atomCmp] using h1) (by simpa [atomCmp] using h2)
          | _ => simp [atom.rank] at hbc
        | _ => simp [atom.rank] at hab
      | table ps =>
        cases b with
        | table qs =>
          cases c with
          | table rs =>
            have helem : ∀ k v, (k, v) ∈ ps →
                (∀ b c, atomCmp k b = .lt → atomCmp b c = .lt → atomCmp k c = .lt) ∧
                (∀ b c, atomCmp v b = .lt → atomCmp b c = .lt → atomCmp v c = .lt) := by
              intro k v hkv
              have hsz := size_lt_of_mem hkv
              have hkpos := atom.size_pos k
              have hvpos := atom.size_pos v
              exact ⟨fun b c => ih k b c (by omega), fun b c => ih v b c (by omega)⟩
            simpa [atomCmp] using pairsCmp_trans_aux ps qs rs helem
              (by simpa [atomCmp] using h1) (by simpa [atomCmp] using h2)
          | _ => simp [atom.rank] at hbc
        | _ => simp [atom.rank] at hab
    · have l1 := atomCmp_lt_rank_le h1
      have l2 := atomCmp_lt_rank_le h2
      rw [atomCmp_rank_ne hac]
      exact Nat.compare_eq_lt.mpr (by omega)

/-! ### Sorted maps -/

/-- The sortedness invariant of `std::map`'s internal representation: keys
strictly increase along the pair list. -/
def map_sorted (l : List (atom × atom)) : Prop :=
  l.Pairwise (fun p q => atomCmp p.1 q.1 = .lt)

theorem map_sorted_nil : map_sorted [] := List.Pairwise.nil

theorem mem_map_emplace {x y k v : atom} :
    ∀ {l : List (atom × atom)}, (x, y) ∈ map_emplace k v l →
      (x = k ∧ y = v) ∨ (x, y) ∈ l := by
  intro l
  induction l with
  | nil => intro h; simp [map_emplace] at h; exact Or.inl h
  | cons p rest ih =>
    obtain ⟨k1, v1⟩ := p
    intro h
    rcases hor : atomCmp k k1 with _ | _ | _ <;> rw [map_emplace, hor] at h
    · rcases List.mem_cons.mp h with h1 | h1
      · cases h1; exact Or.inl ⟨rfl, rfl⟩
      · exact Or.inr h1
    · exact Or.inr h
    · rcases List.mem_cons.mp h with h1 | h1
      · cases h1; exact Or.inr (List.mem_cons_self _ _)
      · rcases ih h1 with h2 | h2
        · exact Or.inl h2
        · exact Or.inr (List.mem_cons_of_mem _ h2)

theorem map_emplace_sorted (k v : atom) :
    ∀ (l : List (atom × atom)), map_sorted l → map_sorted (map_emplace k v l) := by
  intro l
  induction l with
  | nil => intro _; simp [map_emplace, map_sorted]
  | cons p rest ih =>
    obtain ⟨k1, v1⟩ := p
    intro hs
    have hhead := (List.pairwise_cons.mp hs).1
    have hrest := (List.pairwise_cons.mp hs).2
    rcases hor : atomCmp k k1 with _ | _ | _ <;> rw [map_emplace, hor]
    · refine List.pairwise_cons.mpr ⟨?_, hs⟩
      intro q hq
      rcases List.mem_cons.mp hq with h1 | h1
      · rw [h1]; exact hor
      · exact atomCmp_trans _ _ _ hor (hhead q h1)
    · exact hs
    · refine List.pairwise_cons.mpr ⟨?_, ih hrest⟩
      intro q hq
      obtain ⟨qk, qv⟩ := q
      rcases mem_map_emplace hq with ⟨h1, _⟩ | h1
      · rw [h1]; exact (atomCmp_gt_iff k k1).mp hor
      · exact hhead _ h1

theorem map_find_some_mem {k v : atom} :
    ∀ {l : List (atom × atom)}, map_find k l = some v → (k, v) ∈ l := by
  intro l
  induction l with
  | nil => intro h; simp [map_find] at h
  | cons p rest ih =>
    obtain ⟨k1, v1⟩ := p
    intro h
    rw [map_find_cons] at h
    by_cases hk : k = k1
    · subst hk
      simp at h
      rw [h]
      exact List.mem_cons_self _ _
    · rw [if_neg hk] at h
      exact List.mem_cons_of_mem _ (ih h)

theorem map_emplace_of_found (k v : atom) :
    ∀ (l : List (atom × atom)), map_sorted l → (∃ w, map_find k l = some w) →
      map_emplace k v l = l := by
  intro l
  induction l with
  | nil => intro _ h; obtain ⟨w, hw⟩ := h; simp [map_find] at hw
  | cons p rest ih =>
    obtain ⟨k1, v1⟩ := p
    intro hs hfound
    obtain ⟨w, hw⟩ := hfound
    rw [map_find_cons] at hw
    by_cases hk : k = k1
    · have : atomCmp k k1 = .eq := (atomCmp_eq_iff k k1).mpr hk
      rw [map_emplace, this]
    · rw [if_neg hk] at hw
      have hmem := map_find_some_mem hw
      have hhead := (List.pairwise_cons.mp hs).1 _ hmem
      -- k1 < k, so the emplace walks past the head
      have hgt : atomCmp k k1 = .gt := (atomCmp_gt_iff k k1).mpr hhead
      rw [map_emplace, hgt, ih (List.pairwise_cons.mp hs).2 ⟨w, hw⟩]

theorem map_sorted_keys_ne {l : List (atom × atom)} (h : map_sorted l) :
    l.Pairwise (fun p q => p.1 ≠ q.1) := by
  refine h.imp ?_
  intro p q hpq hk
  rw [hk] at hpq
  rw [atomCmp_refl] at hpq
  cases hpq

/-! ### Decimal strings -/

theorem digit_char_toNat {d : Nat} (h : d < 10) : (digit_char d).toNat = 48 + d := by
  interval_cases d <;> rfl

theorem nat_to_chars_acc : ∀ (fuel n : Nat) (acc : List Char),
    nat_to_chars fuel n acc = nat_to_chars fuel n [] ++ acc := by
  intro fuel
  induction fuel with
  | zero => intro n acc; rfl
  | succ fuel ih =>
    intro n acc
    by_cases h : n < 10
    · simp [nat_to_chars, h]
    · simp only [nat_to_chars, if_neg h]
      rw [ih (n / 10) (digit_char (n % 10) :: acc), ih (n / 10) [digit_char (n % 10)]]
      simp

theorem chars_val_append (xs : List Char) (c : Char) :
    chars_val (xs ++ [c]) = 10 * chars_val xs + (c.toNat - 48) := by
  simp [chars_val, List.foldl_append]

theorem nat_to_chars_val : ∀ (fuel n : Nat), n < 10 ^ fuel →
    chars_val (nat_to_chars fuel n []) = n := by
  intro fuel
  induction fuel with
  | zero =>
    intro n h
    have hn : n = 0 := by simpa using h
    subst hn
    rfl
  | succ fuel ih =>
    intro n h
    by_cases h10 : n < 10
    · simp only [nat_to_chars, if_pos h10]
      simp [chars_val, digit_char_toNat h10]
    · simp only [nat_to_chars, if_neg h10]
      rw [nat_to_chars_acc, chars_val_append]
      have hdiv : n / 10 < 10 ^ fuel := by
        rw [Nat.div_lt_iff_lt_mul (by omega)]
        rw [pow_succ] at h
        exact h
      rw [ih _ hdiv, digit_char_toNat (Nat.mod_lt _ (by omega))]
      omega

theorem nat_lt_pow10 (n : Nat) : n < 10 ^ (n + 1) := by
  have h1 := Nat.lt_pow_self (by omega : 1 < 10) n
  have h2 := Nat.pow_le_pow_right (by omega : 1 ≤ 10) (Nat.le_succ n)
  omega

theorem nat_to_string_inj {m n : Nat} (h : nat_to_string m = nat_to_string n) : m = n := by
  have hm := nat_to_chars_val (m + 1) m (nat_lt_pow10 m)
  have hn := nat_to_chars_val (n + 1) n (nat_lt_pow10 n)
  have hdata : nat_to_chars (m + 1) m [] = nat_to_chars (n + 1) n [] := by
    have := congrArg String.data h
    simpa [nat_to_string] using this
  rw [hdata] at hm
  omega

theorem symbol_num_inj {m n : Nat}
    (h : make_symbol (nat_to_string m) = make_symbol (nat_to_string n)) : m = n := by
  apply nat_to_string_inj
  injection h

theorem nat_to_chars_head : ∀ (fuel n : Nat), n < 10 ^ (fuel + 1) →
    ∃ d tail, d < 10 ∧ nat_to_chars (fuel + 1) n [] = digit_char d :: tail := by
  intro fuel
  induction fuel with
  | zero =>
    intro n h
    have h10 : n < 10 := by simpa using h
    exact ⟨n, [], h10, by simp [nat_to_chars, h10]⟩
  | succ fuel ih =>
    intro n h
    by_cases h10 : n < 10
    · exact ⟨n, [], h10, by simp [nat_to_chars, h10]⟩
    · have hdiv : n / 10 < 10 ^ (fuel + 1) := by
        rw [Nat.div_lt_iff_lt_mul (by omega)]
        rw [pow_succ] at h
        exact h
      obtain ⟨d, tail, hd, htail⟩ := ih (n / 10) hdiv
      refine ⟨d, tail ++ [digit_char (n % 10)], hd, ?_⟩
      show nat_to_chars (fuel + 1 + 1) n [] = digit_char d :: (tail ++ [digit_char (n % 10)])
      rw [show nat_to_chars (fuel + 1 + 1) n [] =
          nat_to_chars (fuel + 1) (n / 10) [digit_char (n % 10)] by
        simp [nat_to_chars, h10]]
      rw [nat_to_chars_acc, htail]
      simp

theorem nat_to_string_head (n : Nat) :
    ∃ d tail, d < 10 ∧ (nat_to_string n).data = digit_char d :: tail := by
  obtain ⟨d, tail, hd, htail⟩ := nat_to_chars_head n n (nat_lt_pow10 n)
  exact ⟨d, tail, hd, by simpa [nat_to_string] using htail⟩

/-- Integer-string symbols start with a digit, so they differ from any symbol
whose name starts with a non-digit character. -/
theorem symbol_num_ne {s : String} {c : Char} {cs : List Char}
    (hs : s.data = c :: cs) (hc : ¬(48 ≤ c.toNat ∧ c.toNat ≤ 57)) (n : Nat) :
    make_symbol (nat_to_string n) ≠ make_symbol s := by
  intro h
  obtain ⟨d, tail, hd, htail⟩ := nat_to_string_head n
  have hstr : nat_to_string n = s := by injection h
  rw [hstr, hs] at htail
  have hhead : c = digit_char d := by
    have := congrArg (List.head? ·) htail
    simpa using this
  rw [hhead, digit_char_toNat hd] at hc
  omega

theorem symbol_num_ne_type (n : Nat) : make_symbol (nat_to_string n) ≠ symbols.type :=
  symbol_num_ne (s := "__type") rfl (by decide) n

/-! ### Basic facts about lookup and error atoms -/

theorem table_of_data2 (m k : atom) :
    table_of [(symbols.map, m), (symbols.key, k)] = [(symbols.key, k), (symbols.map, m)] := rfl

theorem table_of_data4 (m k w a : atom) :
    table_of [(symbols.map, m), (symbols.key, k),
              (symbols.universal_lookup_key, w), (symbols.value, a)] =
      [(symbols.key, k), (symbols.map, m),
       (symbols.universal_lookup_key, w), (symbols.value, a)] := rfl

theorem find_type_data2 (m k : atom) :
    map_find symbols.type (table_of [(symbols.map, m), (symbols.key, k)]) = none := rfl

theorem find_type_data4 (m k w a : atom) :
    map_find symbols.type (table_of [(symbols.map, m), (symbols.key, k),
      (symbols.universal_lookup_key, w), (symbols.value, a)]) = none := rfl

theorem is_table_make_error (ty : atom) (msg : String) (data : List (atom × atom)) :
    is_table (make_error ty msg data) = true := rfl

theorem make_error_find_type {data : List (atom × atom)}
    (h : map_find symbols.type data = none) (ty : atom) (msg : String) :
    map_find symbols.type (make_error ty msg data).get_pairs = some symbols.error := by
  simp only [make_error, make_table, atom.get_pairs]
  rw [map_find_emplace_ne _ _ _ (by decide), map_find_emplace_ne _ _ _ (by decide)]
  exact map_find_emplace_self _ _ _ h

theorem lookup_make_error_type {data : List (atom × atom)}
    (h : map_find symbols.type data = none) (ty : atom) (msg : String) :
    lookup (make_error ty msg data) symbols.type = symbols.error := by
  simp [lookup, is_table_make_error, make_error_find_type h ty msg]

theorem is_error_make_error {data : List (atom × atom)}
    (h : map_find symbols.type data = none) (ty : atom) (msg : String) :
    is_error (make_error ty msg data) = true := by
  simp [is_error, lookup_eq, is_table_make_error, lookup_make_error_type h ty msg, atomBeq_refl]

theorem is_statement_make_error {data : List (atom × atom)}
    (h : map_find symbols.type data = none) (ty : atom) (msg : String) :
    is_statement (make_error ty msg data) = false := by
  simp only [is_statement, lookup_eq, lookup_make_error_type h ty msg]
  rw [show atomBeq symbols.error symbols.statement = false from rfl]
  simp

theorem is_table_of_statement {a : atom} (h : is_statement a = true) : is_table a = true := by
  simp only [is_statement, lookup_eq, Bool.and_eq_true] at h
  exact h.1

theorem eq_table_of_is_table {a : atom} (h : is_table a = true) :
    a = atom.table a.get_pairs := by
  cases a <;> simp [is_table, atom.rank] at h ⊢
  rfl

theorem lookup_not_table {m : atom} (k : atom) (h : is_table m = false) :
    lookup m k = make_error symbols.lookup_error "Expected a table for lookup"
      (table_of [(symbols.map, m), (symbols.key, k)]) := by
  simp [lookup, h]

theorem lookup_found {m k v : atom} (h : is_table m = true)
    (hf : map_find k m.get_pairs = some v) : lookup m k = v := by
  simp [lookup, h, hf]

theorem lookup_miss {m k : atom} (h : is_table m = true)
    (hf : map_find k m.get_pairs = none) :
    lookup m k = make_error symbols.lookup_error "Could not find key in table"
      (table_of [(symbols.map, m), (symbols.key, k)]) := by
  simp [lookup, h, hf]

theorem is_error_lookup_not_table {m : atom} (k : atom) (h : is_table m = false) :
    is_error (lookup m k) = true := by
  rw [lookup_not_table k h]
  exact is_error_make_error (find_type_data2 m k) _ _

theorem is_error_lookup_miss {m k : atom} (h : is_table m = true)
    (hf : map_find k m.get_pairs = none) : is_error (lookup m k) = true := by
  rw [lookup_miss h hf]
  exact is_error_make_error (find_type_data2 m k) _ _

theorem lookup_is_statement_mem {m k : atom} (hm : is_table m = true)
    (h : is_statement (lookup m k) = true) :
    ∃ v, map_find k m.get_pairs = some v ∧ lookup m k = v := by
  rcases hf : map_find k m.get_pairs with _ | v
  · rw [lookup_miss hm hf] at h
    rw [is_statement_make_error (find_type_data2 m k) _ _] at h
    cases h
  · exact ⟨v, rfl, lookup_found hm hf⟩

theorem lookup_size_lt {m k v : atom} (hm : is_table m = true)
    (hf : map_find k m.get_pairs = some v) : v.size < m.size := by
  have hmem := map_find_some_mem hf
  have hsz := size_lt_of_mem hmem
  have hkpos := atom.size_pos k
  have : v.size < (atom.table m.get_pairs).size := by omega
  rw [← eq_table_of_is_table hm] at this
  exact this

theorem lookup_statement_size_lt {m : atom} (k : atom) (hm : is_table m = true)
    (h : is_statement (lookup m k) = true) : (lookup m k).size < m.size := by
  obtain ⟨v, hfv, hlv⟩ := lookup_is_statement_mem hm h
  rw [hlv]
  exact lookup_size_lt hm hfv

/-! ### Fuel independence of the evaluator -/

theorem evalF_not_statement {expr : atom} (h : is_statement expr = false) :
    ∀ (fuel : Nat), evalF fuel expr = expr := by
  intro fuel
  cases fuel with
  | zero => rfl
  | succ fuel => simp [evalF, h]

theorem evalF_fuel_irrelevant : ∀ (f1 : Nat), ∀ (f2 : Nat) (expr : atom),
    expr.size < f1 → expr.size < f2 → evalF f1 expr = evalF f2 expr := by
  intro f1
  induction f1 using Nat.strong_induction_on with
  | _ f1 ih =>
    intro f2 expr h1 h2
    have hpos := atom.size_pos expr
    match f1, f2 with
    | g1 + 1, g2 + 1 =>
      by_cases hstmt : is_statement expr
      on_goal 2 =>
        rw [evalF_not_statement (Bool.not_eq_true _ ▸ hstmt),
            evalF_not_statement (Bool.not_eq_true _ ▸ hstmt)]
      have htab := is_table_of_statement hstmt
      have hlk : ∀ key, evalF g1 (lookup expr key) = evalF g2 (lookup expr key) := by
        intro key
        by_cases hx : is_statement (lookup expr key)
        · have hsz := lookup_statement_size_lt key htab hx
          exact ih g1 (Nat.lt_succ_self g1) g2 _ (by omega) (by omega)
        · rw [evalF_not_statement (Bool.not_eq_true _ ▸ hx),
              evalF_not_statement (Bool.not_eq_true _ ▸ hx)]
      simp only [evalF, hstmt, Bool.not_true, Bool.false_eq_true, if_false,
        hlk symbols.zero, hlk symbols.one]

theorem eval_not_statement {expr : atom} (h : is_statement expr = false) :
    eval expr = expr := evalF_not_statement h _

/-- The value computed by `eval` on a lookup result does not depend on the fuel,
as long as the fuel is at least the size of the surrounding table. -/
theorem evalF_lookup_eval (g : Nat) {expr : atom} (htab : is_table expr = true)
    (key : atom) (hg : expr.size ≤ g) :
    evalF g (lookup expr key) = eval (lookup expr key) := by
  by_cases hx : is_statement (lookup expr key)
  · have hsz := lookup_statement_size_lt key htab hx
    exact evalF_fuel_irrelevant g _ _ (by omega) (by omega)
  · rw [evalF_not_statement (Bool.not_eq_true _ ▸ hx),
        eval_not_statement (Bool.not_eq_true _ ▸ hx)]

theorem eval_len_one {expr : atom} (hs : is_statement expr = true) (hl : len expr = 1) :
    eval expr = eval (lookup expr symbols.zero) := by
  have htab := is_table_of_statement hs
  have hb : expr.size ≤ expr.size + 1 := Nat.le_succ _
  show evalF ((expr.size + 1) + 1) expr = _
  generalize hG : expr.size + 1 = G at hb
  simp only [evalF, hs, Bool.not_true, Bool.false_eq_true, if_false, hl, if_pos rfl]
  exact evalF_lookup_eval G htab symbols.zero hb

theorem eval_step {expr : atom} (hs : is_statement expr = true) (hl : len expr ≠ 1) :
    eval expr =
      (let m := eval (lookup expr symbols.zero)
       let k := eval (lookup expr symbols.one)
       let result0 := lookup m k
       let result := if is_error result0 && is_table m then universal_lookup m k else result0
       if len expr = 2 || is_error result then result
       else
         make_statement ((List.range' 2 (len expr - 2)).foldl
           (fun acc n =>
             map_emplace (make_symbol (nat_to_string (n - 1)))
               (lookup expr (make_symbol (nat_to_string n))) acc)
           (map_emplace symbols.zero result []))) := by
  have htab := is_table_of_statement hs
  have hb : expr.size ≤ expr.size + 1 := Nat.le_succ _
  show evalF ((expr.size + 1) + 1) expr = _
  generalize hG : expr.size + 1 = G at hb
  simp only [evalF, hs, Bool.not_true, Bool.false_eq_true, if_false, if_neg hl,
    evalF_lookup_eval G htab symbols.zero hb,
    evalF_lookup_eval G htab symbols.one hb]

/-! ### The length scan -/

theorem len_loop_spec (a : atom) : ∀ (fuel start n : Nat),
    len_loop a fuel start = n →
    (∀ i, start ≤ i → i < n → is_error (lookup a (make_symbol (nat_to_string i))) = false) ∧
    (n < start + fuel → is_error (lookup a (make_symbol (nat_to_string n))) = true) ∧
    start ≤ n := by
  intro fuel
  induction fuel with
  | zero =>
    intro start n h
    rw [len_loop] at h
    subst h
    exact ⟨fun i h1 h2 => by omega, fun h => by omega, le_rfl⟩
  | succ fuel ih =>
    intro start n h
    rw [len_loop] at h
    by_cases he : is_error (lookup a (make_symbol (nat_to_string start))) = true
    · rw [if_pos he] at h
      subst h
      exact ⟨fun i h1 h2 => by omega, fun _ => he, le_rfl⟩
    · have he' : is_error (lookup a (make_symbol (nat_to_string start))) = false := by
        simpa using he
      rw [if_neg he] at h
      obtain ⟨h1, h2, h3⟩ := ih (start + 1) n h
      refine ⟨?_, fun hlt => h2 (by omega), by omega⟩
      intro i hi1 hi2
      rcases Nat.eq_or_lt_of_le hi1 with rfl | hlt
      · exact he'
      · exact h1 i (by omega) hi2

theorem len_loop_eq (a : atom) (L : Nat)
    (h1 : ∀ i, i < L → is_error (lookup a (make_symbol (nat_to_string i))) = false)
    (h2 : is_error (lookup a (make_symbol (nat_to_string L))) = true) :
    ∀ (fuel start : Nat), start ≤ L → L < start + fuel → len_loop a fuel start = L := by
  intro fuel
  induction fuel with
  | zero => intro start hs hl; omega
  | succ fuel ih =>
    intro start hs hl
    rw [len_loop]
    rcases Nat.eq_or_lt_of_le hs with rfl | hlt
    · rw [if_pos h2]
    · rw [if_neg (by simp [h1 start hlt])]
      exact ih (start + 1) (by omega) (by omega)

theorem len_eq {a : atom} {L : Nat}
    (h1 : ∀ i, i < L → is_error (lookup a (make_symbol (nat_to_string i))) = false)
    (h2 : is_error (lookup a (make_symbol (nat_to_string L))) = true)
    (hfuel : L ≤ a.get_pairs.length) : len a = L :=
  len_loop_eq a L h1 h2 (a.get_pairs.length + 1) 0 (by omega) (by omega)

/-! ### Emplacing runs of consecutive integer-string keys -/

theorem emplace_range_spec (g : Nat → atom) :
    ∀ (c s : Nat) (values : List (atom × atom)),
      (∀ j, s ≤ j → map_find (make_symbol (nat_to_string j)) values = none) →
      (∀ i, s ≤ i → i < s + c →
          map_find (make_symbol (nat_to_string i))
            ((List.range' s c).foldl
              (fun acc i => map_emplace (make_symbol (nat_to_string i)) (g i) acc) values)
            = some (g i)) ∧
      (∀ k, (∀ i, s ≤ i → i < s + c → k ≠ make_symbol (nat_to_string i)) →
          map_find k ((List.range' s c).foldl
            (fun acc i => map_emplace (make_symbol (nat_to_string i)) (g i) acc) values)
            = map_find k values) ∧
      ((List.range' s c).foldl
          (fun acc i => map_emplace (make_symbol (nat_to_string i)) (g i) acc) values).length
        = values.length + c := by
  intro c
  induction c with
  | zero =>
    intro s values hfresh
    exact ⟨fun i h1 h2 => by omega, fun k _ => rfl, rfl⟩
  | succ c ih =>
    intro s values hfresh
    rw [List.range'_succ]
    simp only [List.foldl_cons]
    have hfind_s : map_find (make_symbol (nat_to_string s))
        (map_emplace (make_symbol (nat_to_string s)) (g s) values) = some (g s) :=
      map_find_emplace_self _ _ _ (hfresh s le_rfl)
    have hfresh1 : ∀ j, s + 1 ≤ j → map_find (make_symbol (nat_to_string j))
        (map_emplace (make_symbol (nat_to_string s)) (g s) values) = none := by
      intro j hj
      rw [map_find_emplace_ne _ _ _ (fun h => by have := symbol_num_inj h; omega)]
      exact hfresh j (by omega)
    obtain ⟨ha, hb, hc⟩ := ih (s + 1) (map_emplace (make_symbol (nat_to_string s)) (g s) values) hfresh1
    refine ⟨?_, ?_, ?_⟩
    · intro i hi1 hi2
      rcases Nat.eq_or_lt_of_le hi1 with rfl | hlt
      · rw [hb _ (fun j h1 h2 h3 => by have := symbol_num_inj h3; omega)]
        exact hfind_s
      · exact ha i (by omega) (by omega)
    · intro k hk
      rw [hb k (fun i h1 h2 => hk i (by omega) (by omega))]
      rw [map_find_emplace_ne _ _ _ (hk s le_rfl (by omega))]
    · rw [hc, map_emplace_length_of_none _ _ _ (hfresh s le_rfl)]
      omega

/-! ### Statements built by make_statement -/

theorem is_table_make_statement (vals : List (atom × atom)) :
    is_table (make_statement vals) = true := rfl

theorem make_statement_get_pairs (vals : List (atom × atom)) :
    (make_statement vals).get_pairs = map_emplace symbols.type symbols.statement vals := rfl

theorem is_statement_make_statement {vals : List (atom × atom)}
    (h : map_find symbols.type vals = none) :
    is_statement (make_statement vals) = true := by
  have hl : lookup (make_statement vals) symbols.type = symbols.statement := by
    refine lookup_found (is_table_make_statement vals) ?_
    rw [make_statement_get_pairs]
    exact map_find_emplace_self _ _ _ h
  simp [is_statement, lookup_eq, is_table_make_statement, hl, atomBeq_refl]

theorem lookup_make_statement_found {vals : List (atom × atom)} {k v : atom}
    (hk : k ≠ symbols.type) (hf : map_find k vals = some v) :
    lookup (make_statement vals) k = v := by
  refine lookup_found (is_table_make_statement vals) ?_
  rw [make_statement_get_pairs, map_find_emplace_ne _ _ _ hk]
  exact hf

theorem lookup_make_statement_miss {vals : List (atom × atom)} {k : atom}
    (hk : k ≠ symbols.type) (hf : map_find k vals = none) :
    is_error (lookup (make_statement vals) k) = true := by
  refine is_error_lookup_miss (is_table_make_statement vals) ?_
  rw [make_statement_get_pairs, map_find_emplace_ne _ _ _ hk]
  exact hf

theorem make_statement_length {vals : List (atom × atom)}
    (h : map_find symbols.type vals = none) :
    (make_statement vals).get_pairs.length = vals.length + 1 := by
  rw [make_statement_get_pairs]
  exact map_emplace_length_of_none _ _ _ h

/-! ### Error classification and the driver's stopping behaviour -/

theorem lookup_error_field_map (m k : atom) (msg : String) :
    lookup (make_error symbols.lookup_error msg
      (table_of [(symbols.map, m), (symbols.key, k)])) symbols.map = m :=
  lookup_found rfl rfl

theorem lookup_error_field_key (m k : atom) (msg : String) :
    lookup (make_error symbols.lookup_error msg
      (table_of [(symbols.map, m), (symbols.key, k)])) symbols.key = k :=
  lookup_found rfl rfl

theorem lookup_error_field_tag (m k : atom) (msg : String) :
    lookup (make_error symbols.lookup_error msg
      (table_of [(symbols.map, m), (symbols.key, k)])) symbols.error_type =
      symbols.lookup_error :=
  lookup_found rfl rfl

theorem is_error_iff_find (a : atom) :
    is_error a = true ↔
      (is_table a = true ∧ map_find symbols.type a.get_pairs = some symbols.error) := by
  simp only [is_error, lookup_eq, Bool.and_eq_true]
  constructor
  · rintro ⟨htab, hbeq⟩
    refine ⟨htab, ?_⟩
    have heq : lookup a symbols.type = symbols.error := (atomBeq_iff _ _).mp hbeq
    rcases hf : map_find symbols.type a.get_pairs with _ | v
    · rw [lookup_miss htab hf] at heq
      have h2 := congrArg atom.rank heq
      simp [make_error, make_table, atom.rank, symbols.error, make_symbol] at h2
    · rw [lookup_found htab hf] at heq
      exact congrArg some heq
  · rintro ⟨htab, hf⟩
    exact ⟨htab, by rw [lookup_found htab hf]; exact atomBeq_refl _⟩

theorem is_statement_of_is_error {a : atom} (h : is_error a = true) :
    is_statement a = false := by
  obtain ⟨htab, hbeq⟩ := Bool.and_eq_true .. |>.mp h
  have heq : lookup a symbols.type = symbols.error := (atomBeq_iff _ _).mp hbeq
  simp only [is_statement, lookup_eq, heq]
  rw [show atomBeq symbols.error symbols.statement = false from rfl]
  simp

theorem repl_loop_stops {v : atom} (h : is_statement v = false)
    (fuel : Nat) (seen : List atom) : repl_loop (fuel + 1) v seen = .value v := by
  rw [repl_loop, h]
  rfl

/-- Claim C9: `read` acts as the identity on every atom that is not a String
variant; only String atoms are parsed. -/
theorem claim_C9 (a : atom) (h : is_string a = false) : read a = a := by
  simp [read, h]

/-- Witness for C9 at the concrete symbol `x`. -/
theorem claim_C9_witness : read (make_symbol "x") = make_symbol "x" :=
  claim_C9 (make_symbol "x") rfl

/-- Claim C6: `lookup(m, k)` on a non-table `m` is a lookup-error carrying
`map = m` and `key = k`; on a table containing `k` it is the associated value;
on a table not containing `k` it is again a lookup-error carrying `map = m`
and `key = k`. -/
theorem claim_C6 (m k : atom) :
    (is_table m = false →
      is_error (lookup m k) = true ∧
      lookup (lookup m k) symbols.error_type = symbols.lookup_error ∧
      lookup (lookup m k) symbols.map = m ∧
      lookup (lookup m k) symbols.key = k) ∧
    (∀ v, is_table m = true → map_find k m.get_pairs = some v → lookup m k = v) ∧
    (is_table m = true → map_find k m.get_pairs = none →
      is_error (lookup m k) = true ∧
      lookup (lookup m k) symbols.error_type = symbols.lookup_error ∧
      lookup (lookup m k) symbols.map = m ∧
      lookup (lookup m k) symbols.key = k) := by
  refine ⟨?_, ?_, ?_⟩
  · intro h
    rw [lookup_not_table k h]
    exact ⟨is_error_make_error (find_type_data2 m k) _ _,
      lookup_error_field_tag m k _, lookup_error_field_map m k _,
      lookup_error_field_key m k _⟩
  · intro v htab hf
    exact lookup_found htab hf
  · intro htab hf
    rw [lookup_miss htab hf]
    exact ⟨is_error_make_error (find_type_data2 m k) _ _,
      lookup_error_field_tag m k _, lookup_error_field_map m k _,
      lookup_error_field_key m k _⟩

/-- Witness for C6: indexing a non-table surfaces a lookup error carrying the
key; looking up a present key returns its value. -/
theorem claim_C6_witness :
    (is_error (lookup (make_symbol "a") (make_symbol "b")) = true ∧
      lookup (lookup (make_symbol "a") (make_symbol "b")) symbols.key = make_symbol "b") ∧
    lookup (make_table [(make_symbol "foo", make_symbol "bar")]) (make_symbol "foo") =
      make_symbol "bar" := by
  obtain ⟨h1, _, _, h4⟩ := (claim_C6 (make_symbol "a") (make_symbol "b")).1 rfl
  refine ⟨⟨h1, h4⟩, ?_⟩
  exact (claim_C6 (make_table [(make_symbol "foo", make_symbol "bar")])
    (make_symbol "foo")).2.1 (make_symbol "bar") rfl rfl

/-- Claim C10: `is_error` holds exactly of tables whose `__type` key maps to
the symbol `error`; consequently any such table — including one constructed
from user input — is classified as an error, `eval` returns it as the step
result (even in a chaining position), and the driver loop stops reducing at
it. -/
theorem claim_C10 :
    (∀ a, is_error a = true ↔
      (is_table a = true ∧ map_find symbols.type a.get_pairs = some symbols.error)) ∧
    (∀ expr, is_statement expr = true → len expr ≠ 1 →
      is_error (step_lookup (eval (lookup expr symbols.zero))
        (eval (lookup expr symbols.one))) = true →
      eval expr = step_lookup (eval (lookup expr symbols.zero))
        (eval (lookup expr symbols.one))) ∧
    (∀ v, is_error v = true → ∀ (fuel : Nat) (seen : List atom),
      repl_loop (fuel + 1) v seen = .value v) := by
  refine ⟨is_error_iff_find, ?_, ?_⟩
  · intro expr hs hl herr
    have h2 : eval expr =
        (if len expr = 2 ||
            is_error (step_lookup (eval (lookup expr symbols.zero)) (eval (lookup expr symbols.one)))
          then step_lookup (eval (lookup expr symbols.zero)) (eval (lookup expr symbols.one))
          else make_statement ((List.range' 2 (len expr - 2)).foldl
            (fun acc n => map_emplace (make_symbol (nat_to_string (n - 1)))
              (lookup expr (make_symbol (nat_to_string n))) acc)
            (map_emplace symbols.zero
              (step_lookup (eval (lookup expr symbols.zero)) (eval (lookup expr symbols.one)))
              []))) := eval_step hs hl
    rw [h2, herr]
    simp
  · intro v hv fuel seen
    exact repl_loop_stops (is_statement_of_is_error hv) fuel seen

/-- Witness for C10: the user-constructed table read from
`\x7b__type = error\x7d` is classified as an error and halts the driver; a
lookup that retrieves such a table in a chaining position makes eval return
it directly. -/
theorem claim_C10_witness :
    is_error user_error_table = true ∧
    repl_loop 3 user_error_table [] = .value user_error_table ∧
    eval (make_statement (table_of
      [(symbols.zero, make_table (table_of [(make_substitution "x", user_error_table)])),
       (symbols.one, make_symbol "q"),
       (make_symbol "2", make_symbol "rest")])) = user_error_table := by
  have h1 : is_error user_error_table = true := by decide
  refine ⟨h1, claim_C10.2.2 user_error_table h1 2 [], ?_⟩
  have h2 := claim_C10.2.1 (make_statement (table_of
      [(symbols.zero, make_table (table_of [(make_substitution "x", user_error_table)])),
       (symbols.one, make_symbol "q"),
       (make_symbol "2", make_symbol "rest")])) (by decide) (by decide) (by decide)
  rw [h2]
  decide

/-! ### Cycle detection in the driver loop -/

theorem any_cmp_mem (v : atom) (l : List atom) :
    (l.any (fun s => atomCmp v s = .eq)) = true ↔ v ∈ l := by
  simp [List.any_eq_true, atomCmp_eq_iff]

/-- Claim C7: if the iterated eval trace of a driver run revisits a state —
`t j` equals an earlier `t i`, every state before the repeat is a statement,
and the repeat is the first one (so the `N = j` states `t 0 … t (j-1)` are
exactly the distinct states before the repeat) — then the driver loop halts
with the infinite-loop condition within `N + 1` eval steps: with fuel `N + 1`
(one eval step per unit of fuel) it reports `infinite_loop` rather than
running forever or exhausting the fuel. -/
theorem claim_C7 (t : Nat → atom) (j i : Nat)
    (htrace : ∀ n, t (n + 1) = eval (t n))
    (hstmt : ∀ n, n < j → is_statement (t n) = true)
    (hrep : t j = t i) (hij : i < j)
    (hfirst : ∀ a b, a < b → b < j → t a ≠ t b) :
    repl_loop (j + 1) (t 0) [] = .infinite_loop := by
  have hS : ∀ k : Nat, (List.range (k + 1)).reverse.map (fun m => t (m + 1)) =
      t (k + 1) :: (List.range k).reverse.map (fun m => t (m + 1)) := by
    intro k
    rw [List.range_succ, List.reverse_append]
    simp
  have hmem : ∀ (x : atom) (k : Nat),
      x ∈ (List.range k).reverse.map (fun m => t (m + 1)) ↔
        ∃ m, m < k ∧ x = t (m + 1) := by
    intro x k
    simp [List.mem_map, List.mem_reverse, List.mem_range, eq_comm]
  have main : ∀ d k, j - k = d → k < j →
      repl_loop (j + 1 - k) (t k) ((List.range k).reverse.map (fun m => t (m + 1))) =
        .infinite_loop := by
    intro d
    induction d using Nat.strong_induction_on with
    | _ d ihd =>
      intro k hd hk
      rw [show j + 1 - k = (j - k) + 1 by omega]
      rw [repl_loop, hstmt k hk]
      simp only [Bool.not_true, Bool.false_eq_true, if_false]
      rw [← htrace k]
      rcases Nat.lt_or_ge (k + 1) j with hlt | hge
      · -- before the repeat: the new state is fresh
        have hnotin : ¬ t (k + 1) ∈ (List.range k).reverse.map (fun m => t (m + 1)) := by
          rw [hmem]
          rintro ⟨m, hm, hmeq⟩
          exact hfirst (m + 1) (k + 1) (by omega) (by omega) hmeq.symm
        rw [if_neg (fun h => hnotin ((any_cmp_mem _ _).mp h))]
        have hnext := ihd (j - (k + 1)) (by omega) (k + 1) rfl hlt
        rw [show j + 1 - (k + 1) = j - k by omega, hS k] at hnext
        exact hnext
      · -- the step that produces the repeated state
        have hkj : k + 1 = j := by omega
        rcases Nat.eq_zero_or_pos i with hi0 | hipos
        · -- the repeat is with the initial state, which is not in the seen
          -- set; one more step reproduces t 1, which is
          subst hi0
          have hnotin : ¬ t (k + 1) ∈ (List.range k).reverse.map (fun m => t (m + 1)) := by
            rw [hmem]
            rintro ⟨m, hm, hmeq⟩
            rw [hkj, hrep] at hmeq
            exact hfirst 0 (m + 1) (by omega) (by omega) hmeq
          rw [if_neg (fun h => hnotin ((any_cmp_mem _ _).mp h))]
          rw [show j - k = 0 + 1 by omega]
          rw [repl_loop]
          have hsj : is_statement (t (k + 1)) = true := by
            rw [hkj, hrep]
            exact hstmt 0 (by omega)
          rw [hsj]
          simp only [Bool.not_true, Bool.false_eq_true, if_false]
          have hv : eval (t (k + 1)) = t 1 := by
            rw [hkj, hrep, ← htrace 0]
          rw [hv]
          have hin2 : t 1 ∈ t (k + 1) :: (List.range k).reverse.map (fun m => t (m + 1)) := by
            rcases Nat.eq_zero_or_pos k with hk0 | hkpos
            · subst hk0
              simp
            · exact List.mem_cons_of_mem _ ((hmem _ k).mpr ⟨0, hkpos, rfl⟩)
          rw [if_pos ((any_cmp_mem _ _).mpr hin2)]
        · -- the repeated state is already in the seen set
          have hin : t (k + 1) ∈ (List.range k).reverse.map (fun m => t (m + 1)) := by
            rw [hmem]
            refine ⟨i - 1, by omega, ?_⟩
            rw [hkj, hrep]
            congr 1
            omega
          rw [if_pos ((any_cmp_mem _ _).mpr hin)]
  have h0 := main j 0 (by omega) (by omega)
  simpa using h0

/-- Witness for C7: the self-reproducing statement `(d d)`,
`d = \x7b$x = $x $x\x7d`, repeats immediately (`N = 1` distinct state before
the repeat), and the driver flags the infinite loop with fuel `N + 1 = 2`. -/
theorem claim_C7_witness : repl_loop 2 omega_stmt [] = .infinite_loop := by
  have h := claim_C7 (fun _ => omega_stmt) 1 0
    (fun n => by show omega_stmt = eval omega_stmt; decide)
    (fun n _ => by show is_statement omega_stmt = true; decide) rfl (by omega)
    (fun a b hab hb1 => by omega)
  exact h

/-! ### The chaining step of eval -/

theorem eval_step_sl {expr : atom} (hs : is_statement expr = true) (hl : len expr ≠ 1) :
    eval expr =
      (if len expr = 2 ||
          is_error (step_lookup (eval (lookup expr symbols.zero)) (eval (lookup expr symbols.one)))
        then step_lookup (eval (lookup expr symbols.zero)) (eval (lookup expr symbols.one))
        else make_statement ((List.range' 2 (len expr - 2)).foldl
          (fun acc n => map_emplace (make_symbol (nat_to_string (n - 1)))
            (lookup expr (make_symbol (nat_to_string n))) acc)
          (map_emplace symbols.zero
            (step_lookup (eval (lookup expr symbols.zero)) (eval (lookup expr symbols.one)))
            []))) := eval_step hs hl

theorem is_error_make_statement {vals : List (atom × atom)}
    (h : map_find symbols.type vals = none) :
    is_error (make_statement vals) = false := by
  have hl : lookup (make_statement vals) symbols.type = symbols.statement := by
    refine lookup_found (is_table_make_statement vals) ?_
    rw [make_statement_get_pairs]
    exact map_find_emplace_self _ _ _ h
  simp only [is_error, lookup_eq, hl]
  rw [show atomBeq symbols.statement symbols.error = false from rfl]
  simp

theorem zero_eq_num : symbols.zero = make_symbol (nat_to_string 0) := rfl

theorem range'_shift_fold (f : Nat → atom) :
    ∀ (c s : Nat) (init : List (atom × atom)), 1 ≤ s →
      (List.range' s c).foldl
        (fun acc n => map_emplace (make_symbol (nat_to_string (n - 1))) (f n) acc) init =
      (List.range' (s - 1) c).foldl
        (fun acc i => map_emplace (make_symbol (nat_to_string i)) (f (i + 1)) acc) init := by
  intro c
  induction c with
  | zero => intros; rfl
  | succ c ih =>
    intro s init hs
    rw [List.range'_succ, List.range'_succ]
    simp only [List.foldl_cons]
    rw [show s - 1 + 1 = s by omega]
    have h2 := ih (s + 1) (map_emplace (make_symbol (nat_to_string (s - 1))) (f s) init) (by omega)
    rw [show s + 1 - 1 = s by omega] at h2
    exact h2

/-- Claim C4: for a statement of length `L > 2` whose combined
direct-or-universal lookup of the evaluated first two elements succeeds, eval
returns a new Statement of length `L - 1` whose element 0 is the lookup result
and whose elements `1 … L-2` are the original elements `2 … L-1` in order,
taken from the original statement without re-evaluation. -/
theorem claim_C4 (expr : atom) (L : Nat)
    (hs : is_statement expr = true) (hlen : len expr = L) (hL : 2 < L)
    (hok : is_error (step_lookup (eval (lookup expr symbols.zero))
      (eval (lookup expr symbols.one))) = false) :
    is_statement (eval expr) = true ∧
    len (eval expr) = L - 1 ∧
    lookup (eval expr) symbols.zero =
      step_lookup (eval (lookup expr symbols.zero)) (eval (lookup expr symbols.one)) ∧
    (∀ n, 2 ≤ n → n < L →
      lookup (eval expr) (make_symbol (nat_to_string (n - 1))) =
        lookup expr (make_symbol (nat_to_string n))) := by
  have hne1 : len expr ≠ 1 := by omega
  have hne2 : ¬ (len expr = 2) := by omega
  have heval := eval_step_sl hs hne1
  rw [if_neg (by simp [hne2, hok])] at heval
  rw [hlen] at heval
  -- reindex the fold to start the keys at 1
  rw [range'_shift_fold (fun n => lookup expr (make_symbol (nat_to_string n))) (L - 2) 2 _
    (by omega)] at heval
  set res := step_lookup (eval (lookup expr symbols.zero)) (eval (lookup expr symbols.one))
    with hres
  -- the accumulator [(「0」, res)]
  have hinit : map_emplace symbols.zero res [] = [(symbols.zero, res)] := rfl
  have hfresh : ∀ j, 1 ≤ j →
      map_find (make_symbol (nat_to_string j)) (map_emplace symbols.zero res []) = none := by
    intro j hj
    rw [hinit, map_find_cons, if_neg (by
      rw [zero_eq_num]
      intro h
      have := symbol_num_inj h
      omega)]
    rfl
  obtain ⟨hfind, hother, hlength⟩ :=
    emplace_range_spec (fun i => lookup expr (make_symbol (nat_to_string (i + 1))))
      (L - 2) 1 (map_emplace symbols.zero res []) hfresh
  rw [show (2 : Nat) - 1 = 1 from rfl] at heval
  set vals := (List.range' 1 (L - 2)).foldl
      (fun acc i => map_emplace (make_symbol (nat_to_string i))
        (lookup expr (make_symbol (nat_to_string (i + 1)))) acc)
      (map_emplace symbols.zero res []) with hvals
  -- key bookkeeping facts about vals
  have hfind0 : map_find symbols.zero vals = some res := by
    rw [hother symbols.zero (fun i h1 h2 => by
      rw [zero_eq_num]
      intro h
      have := symbol_num_inj h
      omega), hinit, map_find_cons, if_pos rfl]
  have hfindtype : map_find symbols.type vals = none := by
    rw [hother symbols.type (fun i h1 h2 h => (symbol_num_ne_type i) h.symm), hinit,
      map_find_cons, if_neg (by decide)]
    rfl
  have hfindi : ∀ i, 1 ≤ i → i < L - 1 →
      map_find (make_symbol (nat_to_string i)) vals =
        some (lookup expr (make_symbol (nat_to_string (i + 1)))) := by
    intro i h1 h2
    exact hfind i h1 (by omega)
  have hfindend : map_find (make_symbol (nat_to_string (L - 1))) vals = none := by
    rw [hother _ (fun i h1 h2 h => by
      have := symbol_num_inj h
      omega)]
    exact hfresh (L - 1) (by omega)
  -- the lookups of the original elements are not errors
  have hspec := len_loop_spec expr (expr.get_pairs.length + 1) 0 L hlen
  have helem_ok : ∀ n, n < L →
      is_error (lookup expr (make_symbol (nat_to_string n))) = false :=
    fun n hn => hspec.1 n (by omega) hn
  refine ⟨?_, ?_, ?_, ?_⟩
  · rw [heval]
    exact is_statement_make_statement hfindtype
  · rw [heval]
    refine len_eq ?_ ?_ ?_
    · intro n hn
      rcases Nat.eq_zero_or_pos n with rfl | hpos
      · rw [← zero_eq_num, lookup_make_statement_found (by decide) hfind0]
        exact hok
      · rw [lookup_make_statement_found (symbol_num_ne_type n) (hfindi n hpos (by omega))]
        exact helem_ok (n + 1) (by omega)
    · exact lookup_make_statement_miss (symbol_num_ne_type (L - 1)) hfindend
    · rw [make_statement_length hfindtype, hlength, hinit]
      simp
      omega
  · rw [heval]
    exact lookup_make_statement_found (by decide) hfind0
  · intro n h2 hn
    rw [heval]
    rw [lookup_make_statement_found (symbol_num_ne_type (n - 1))
      (by
        have h := hfindi (n - 1) (by omega) (by omega)
        rw [show n - 1 + 1 = n by omega] at h
        exact h)]

/-- Witness for C4: the chaining example `(m1 k j)` with
`m1 = \x7bk = \x7bj = done\x7d\x7d` reduces to the length-2 statement
`(\x7bj = done\x7d j)` whose element 1 is the untouched original element
`j`. -/
theorem claim_C4_witness :
    is_statement (eval chain_stmt) = true ∧ len (eval chain_stmt) = 2 ∧
    lookup (eval chain_stmt) (make_symbol "1") = make_symbol "j" := by
  obtain ⟨h1, h2, h3, h4⟩ := claim_C4 chain_stmt 3 (by decide) (by decide) (by omega) (by decide)
  refine ⟨h1, h2, ?_⟩
  have h := h4 2 (by omega) (by omega)
  rw [show make_symbol (nat_to_string (2 - 1)) = make_symbol "1" from rfl] at h
  rw [h]
  decide

/-! ### Universal lookup and substitution mismatches -/

theorem fn_substitute_mismatch {m k w e : atom} (hsub : is_substitution e = true)
    (hne : e ≠ w) :
    fn_substitute m k w e = make_error symbols.lookup_error
      "Mismatch between substitution key and expression"
      (table_of [(symbols.map, m), (symbols.key, k),
        (symbols.universal_lookup_key, w), (symbols.value, e)]) := by
  have hbeq : atomBeq w e = false := by
    rcases hb : atomBeq w e
    · rfl
    · exact absurd ((atomBeq_iff w e).mp hb).symm hne
  simp [fn_substitute, hsub, hbeq]

/-- Counterexample to C3 as stated: applying `\x7b$x = $y z\x7d` to `foo`
triggers universal lookup with a Statement template containing the mismatched
substitution `$y`, yet the step result is not a lookup-error atom — it is a
statement (the error is embedded as its element 0 instead of being returned
as-is). -/
theorem claim_C3_counterexample :
    is_error (eval mismatch_stmt) = false ∧
    is_statement (eval mismatch_stmt) = true ∧
    is_error (lookup (eval mismatch_stmt) symbols.zero) = true := by
  refine ⟨by decide, by decide, by decide⟩

/-- Claim C3 (amended): during universal lookup (entered when the direct
lookup failed and the map is a table), a template element that is a
Substitution different from the wildcard produces the mismatch lookup-error;
when the template is a single atom, that error is itself the result of the
eval step; when the template is a Statement, the eval step instead returns a
statement (not an error) in which the mismatch error appears as the
corresponding element. -/
theorem claim_C3 (expr m k w tmpl : atom)
    (hs : is_statement expr = true) (hlen : len expr = 2)
    (hm : eval (lookup expr symbols.zero) = m)
    (hk : eval (lookup expr symbols.one) = k)
    (hfail : is_error (lookup m k) = true)
    (htab : is_table m = true)
    (hpul : get_universal_lookup_pair m = some (w, tmpl)) :
    (is_statement tmpl = false → is_substitution tmpl = true → tmpl ≠ w →
      eval expr = make_error symbols.lookup_error
          "Mismatch between substitution key and expression"
          (table_of [(symbols.map, m), (symbols.key, k),
            (symbols.universal_lookup_key, w), (symbols.value, tmpl)]) ∧
      is_error (eval expr) = true) ∧
    (∀ TL idx e, is_statement tmpl = true → len tmpl = TL → idx < TL →
      lookup tmpl (make_symbol (nat_to_string idx)) = e →
      is_substitution e = true → e ≠ w →
      is_error (eval expr) = false ∧ is_statement (eval expr) = true ∧
      lookup (eval expr) (make_symbol (nat_to_string idx)) =
        make_error symbols.lookup_error
          "Mismatch between substitution key and expression"
          (table_of [(symbols.map, m), (symbols.key, k),
            (symbols.universal_lookup_key, w), (symbols.value, e)])) := by
  have heval : eval expr = universal_lookup m k := by
    have h := eval_step_sl hs (by omega)
    rw [hm, hk] at h
    rw [if_pos (by simp [hlen])] at h
    rw [h]
    simp [step_lookup, hfail, htab]
  have huni : universal_lookup m k =
      (if !is_statement tmpl then fn_substitute m k w tmpl
       else make_statement ((List.range (len tmpl)).foldl
        (fun acc i =>
          map_emplace (make_symbol (nat_to_string i))
            (fn_substitute m k w (lookup tmpl (make_symbol (nat_to_string i)))) acc)
        [])) := by
    unfold universal_lookup
    rw [hpul]
  constructor
  · intro hnst hsub hne
    rw [heval, huni, hnst]
    simp only [Bool.not_false, if_true]
    rw [fn_substitute_mismatch hsub hne]
    exact ⟨rfl, is_error_make_error (find_type_data4 m k w tmpl) _ _⟩
  · intro TL idx e hst hTL hidx hlook hsub hne
    rw [heval, huni, hst]
    simp only [Bool.not_true, Bool.false_eq_true, if_false]
    rw [hTL, List.range_eq_range']
    have hfresh : ∀ j, 0 ≤ j →
        map_find (make_symbol (nat_to_string j)) ([] : List (atom × atom)) = none :=
      fun j _ => rfl
    obtain ⟨hfind, hother, hlength⟩ :=
      emplace_range_spec
        (fun i => fn_substitute m k w (lookup tmpl (make_symbol (nat_to_string i))))
        TL 0 [] hfresh
    have hfindtype : map_find symbols.type
        ((List.range' 0 TL).foldl
          (fun acc i => map_emplace (make_symbol (nat_to_string i))
            (fn_substitute m k w (lookup tmpl (make_symbol (nat_to_string i)))) acc)
          []) = none := by
      rw [hother symbols.type (fun i h1 h2 h => (symbol_num_ne_type i) h.symm)]
      rfl
    refine ⟨is_error_make_statement hfindtype, is_statement_make_statement hfindtype, ?_⟩
    rw [lookup_make_statement_found (symbol_num_ne_type idx) (hfind idx (by omega) (by omega))]
    rw [hlook]
    exact fn_substitute_mismatch hsub hne

/-- Witness for C3: the single-atom template `\x7b$x = $y\x7d` applied to
`foo` yields the mismatch error as the step result, while the statement
template `\x7b$x = $y z\x7d` yields a non-error statement whose element 0 is
the mismatch error. -/
theorem claim_C3_witness :
    is_error (eval mismatch_single_stmt) = true ∧
    is_error (eval mismatch_stmt) = false ∧
    is_error (lookup (eval mismatch_stmt) symbols.zero) = true := by
  obtain ⟨hA, _⟩ := claim_C3 mismatch_single_stmt
      (read (make_string "\x7b$x = $y\x7d")) (make_symbol "foo")
      (make_substitution "x") (make_substitution "y")
      (by decide) (by decide) (by decide) (by decide) (by decide) (by decide) (by decide)
  obtain ⟨_, herr⟩ := hA (by decide) (by decide) (by decide)
  obtain ⟨_, hB⟩ := claim_C3 mismatch_stmt mismatch_map (make_symbol "foo")
      (make_substitution "x") (read (make_string "$y z"))
      (by decide) (by decide) (by decide) (by decide) (by decide) (by decide) (by decide)
  obtain ⟨h1, _, h3⟩ := hB 2 0 (make_substitution "y")
      (by decide) (by decide) (by omega) (by decide) (by decide) (by decide)
  refine ⟨herr, h1, ?_⟩
  rw [zero_eq_num, h3]
  decide

/-! ### Trailing input after the top-level statement -/

theorem is_error_fuel_error : is_error fuel_error = true := rfl

theorem is_error_table_eof : is_error table_eof_error = true := rfl

theorem is_error_make_error_nil (ty : atom) (msg : String) :
    is_error (make_error ty msg []) = true :=
  is_error_make_error (show map_find symbols.type ([] : List (atom × atom)) = none from rfl)
    ty msg

theorem pair_eq_iff {A B : Type} {a c : A} {b d : B} :
    (a, b) = (c, d) ↔ a = c ∧ b = d := by
  constructor
  · intro h
    injection h with h1 h2
    exact ⟨h1, h2⟩
  · rintro ⟨rfl, rfl⟩
    rfl

theorem skip_ws_head : ∀ si : List Char, skip_ws si = [] ∨
    ∃ c rest, skip_ws si = c :: rest ∧ is_space c = false := by
  intro si
  induction si with
  | nil => left; rfl
  | cons c rest ih =>
    by_cases h : is_space c
    · rw [skip_ws, if_pos h]
      exact ih
    · right
      exact ⟨c, rest, by rw [skip_ws, if_neg h], by simpa using h⟩

theorem read_atom_none_nonspace : ∀ (fuel : Nat) (si si2 : List Char),
    read_atom fuel si = (si2, none) →
    si2 = [] ∨ ∃ c rest, si2 = c :: rest ∧ is_space c = false := by
  intro fuel si si2 h
  cases fuel with
  | zero => simp [read_atom] at h
  | succ fuel =>
    rw [read_atom] at h
    split at h
    · left
      exact (pair_eq_iff.mp h).1.symm
    · rename_i c rest hws
      split at h
      · exact absurd (pair_eq_iff.mp h).2 (by simp)
      · split at h
        · exact absurd (pair_eq_iff.mp h).2 (by simp)
        · split at h
          · exact absurd (pair_eq_iff.mp h).2 (by simp)
          · split at h
            · exact absurd (pair_eq_iff.mp h).2 (by simp)
            · right
              refine ⟨c, rest, (pair_eq_iff.mp h).1.symm, ?_⟩
              rcases skip_ws_head si with h0 | ⟨c2, r2, h0, hsp⟩
              · rw [h0] at hws
                cases hws
              · rw [h0] at hws
                injection hws with e1 e2
                rwa [← e1]

theorem read_statement_loop_pos : ∀ (fuel : Nat) (values : List (atom × atom)) (n : Nat)
    (si si2 : List Char) (r : atom),
    read_statement_loop fuel values n si = (si2, r) → is_error r = false →
    si2 = [] ∨ ∃ c rest, si2 = c :: rest ∧ is_space c = false := by
  intro fuel
  induction fuel with
  | zero =>
    intro values n si si2 r h hr
    rw [read_statement_loop] at h
    obtain ⟨h1, h2⟩ := pair_eq_iff.mp h
    rw [← h2, is_error_fuel_error] at hr
    cases hr
  | succ fuel ih =>
    intro values n si si2 r h hr
    rw [read_statement_loop] at h
    split at h
    · rename_i si3 hra
      have hpos := read_atom_none_nonspace fuel si si3 hra
      split at h
      · obtain ⟨h1, h2⟩ := pair_eq_iff.mp h
        rw [← h2, is_error_make_error_nil] at hr
        cases hr
      · split at h
        · obtain ⟨h1, h2⟩ := pair_eq_iff.mp h
          rw [h1] at hpos
          exact hpos
        · obtain ⟨h1, h2⟩ := pair_eq_iff.mp h
          rw [h1] at hpos
          exact hpos
    · rename_i si3 a hra
      split at h
      · rename_i he
        obtain ⟨h1, h2⟩ := pair_eq_iff.mp h
        rw [← h2, he] at hr
        cases hr
      · exact ih _ _ _ _ _ h hr

theorem read_statement_pos {fuel : Nat} {si si2 : List Char} {r : atom}
    (h : read_statement fuel si = (si2, r)) (hr : is_error r = false) :
    si2 = [] ∨ ∃ c rest, si2 = c :: rest ∧ is_space c = false := by
  cases fuel with
  | zero =>
    rw [read_statement] at h
    obtain ⟨h1, h2⟩ := pair_eq_iff.mp h
    rw [← h2, is_error_fuel_error] at hr
    cases hr
  | succ fuel =>
    rw [read_statement] at h
    exact read_statement_loop_pos fuel [] 0 si si2 r h hr

/-- Claim C8: when the top-level statement is read successfully, `read`
returns it if only (already consumed) whitespace remained; any remaining
non-whitespace input makes `read` return a read error naming the offending
character — and whatever remains after a successful statement parse
necessarily starts with a non-whitespace character, so trailing whitespace
alone never causes the error. -/
theorem claim_C8 (s : String) (si2 : List Char) (r : atom)
    (hrun : read_statement (read_fuel s.data) s.data = (si2, r))
    (hok : is_error r = false) :
    (si2 = [] → read (make_string s) = r) ∧
    (∀ c rest, si2 = c :: rest →
      is_space c = false ∧
      read (make_string s) = make_error symbols.read_error
        ("Unexpected character '" ++ String.singleton c ++ "'") []) := by
  have hread : read (make_string s) =
      (if !is_error r && !si2.isEmpty then
        make_error symbols.read_error ("Unexpected character '" ++ head_str si2 ++ "'") []
      else r) := by
    show (if !is_string (make_string s) then make_string s else _) = _
    rw [if_neg (by simp [is_string, make_string, atom.rank])]
    show (let p := read_statement (read_fuel (make_string s).get_value.data)
            (make_string s).get_value.data
          if !is_error p.2 && !p.1.isEmpty then
            make_error symbols.read_error ("Unexpected character '" ++ head_str p.1 ++ "'") []
          else p.2) = _
    show (let p := read_statement (read_fuel s.data) s.data
          if !is_error p.2 && !p.1.isEmpty then
            make_error symbols.read_error ("Unexpected character '" ++ head_str p.1 ++ "'") []
          else p.2) = _
    rw [hrun]
  constructor
  · intro hnil
    subst hnil
    rw [hread]
    simp [hok]
  · intro c rest hcons
    subst hcons
    have hpos := read_statement_pos hrun hok
    rcases hpos with hpos | ⟨c2, r2, heq, hsp⟩
    · cases hpos
    · obtain ⟨rfl, rfl⟩ : c2 = c ∧ r2 = rest := by
        injection heq with h1 h2
        exact ⟨h1.symm, h2.symm⟩
      refine ⟨hsp, ?_⟩
      rw [hread]
      rw [if_pos (by simp [hok])]
      rfl

/-- Witness for C8: the input consisting of the symbol `a` followed by a
closing brace parses the statement `a` and leaves the non-whitespace brace, so
read reports it; the same symbol followed only by a blank reads cleanly. -/
theorem claim_C8_witness :
    read (make_string "a \x7d") = make_error symbols.read_error
      ("Unexpected character '" ++ String.singleton brace_close ++ "'") [] ∧
    read (make_string "a ") = make_symbol "a" := by
  constructor
  · have h := claim_C8 "a \x7d" [brace_close] (make_symbol "a") (by decide) (by decide)
    exact (h.2 brace_close [] rfl).2
  · have h := claim_C8 "a " [] (make_symbol "a") (by decide) (by decide)
    exact h.1 rfl


/-! ### Packing of statements by the reader -/

theorem read_atom_list_no_error : ∀ (fuel : Nat) (si : List Char) (a : atom),
    a ∈ read_atom_list fuel si → is_error a = false := by
  intro fuel
  induction fuel with
  | zero => intro si a h; simp [read_atom_list] at h
  | succ fuel ih =>
    intro si a h
    rw [read_atom_list] at h
    split at h
    · simp at h
    · rename_i si3 b hra
      split at h
      · simp at h
      · rename_i hb
        rcases List.mem_cons.mp h with rfl | h2
        · simpa using hb
        · exact ih si3 a h2

/-- The result of the statement-reading loop, related to the list of atoms it
consumes: the final accumulator binds the consecutive keys, a single collected
atom is unwrapped, and otherwise the accumulator becomes a statement. -/
theorem read_statement_loop_spec : ∀ (fuel : Nat) (values : List (atom × atom)) (n : Nat)
    (si si2 : List Char) (r : atom),
    read_statement_loop fuel values n si = (si2, r) → is_error r = false →
    (n + (read_atom_list fuel si).length = 1 →
      r = (map_find symbols.zero (emplace_atoms values n (read_atom_list fuel si))).getD
        (make_symbol "")) ∧
    (n + (read_atom_list fuel si).length ≠ 1 →
      r = make_statement (emplace_atoms values n (read_atom_list fuel si))) := by
  intro fuel
  induction fuel with
  | zero =>
    intro values n si si2 r h hr
    rw [read_statement_loop] at h
    obtain ⟨h1, h2⟩ := pair_eq_iff.mp h
    rw [← h2, is_error_fuel_error] at hr
    cases hr
  | succ fuel ih =>
    intro values n si si2 r h hr
    rw [read_statement_loop] at h
    split at h
    · rename_i si3 hra
      have hlist : read_atom_list (fuel + 1) si = [] := by
        simp only [read_atom_list, hra]
      rw [hlist]
      simp only [List.length_nil, Nat.add_zero]
      split at h
      · obtain ⟨h1, h2⟩ := pair_eq_iff.mp h
        rw [← h2, is_error_make_error_nil] at hr
        cases hr
      · split at h
        · rename_i hempty hn1
          obtain ⟨h1, h2⟩ := pair_eq_iff.mp h
          exact ⟨fun _ => h2.symm, fun hne => absurd hn1 hne⟩
        · rename_i hempty hn1
          obtain ⟨h1, h2⟩ := pair_eq_iff.mp h
          exact ⟨fun heq => absurd heq hn1, fun _ => h2.symm⟩
    · rename_i si3 a hra
      split at h
      · rename_i he
        obtain ⟨h1, h2⟩ := pair_eq_iff.mp h
        rw [← h2, he] at hr
        cases hr
      · rename_i he
        have hlist : read_atom_list (fuel + 1) si = a :: read_atom_list fuel si3 := by
          simp only [read_atom_list, hra]
          rw [if_neg (by simpa using he)]
        rw [hlist]
        have hrec := ih (map_emplace (make_symbol (nat_to_string n)) a values) (n + 1) si3 si2 r h hr
        simp only [List.length_cons]
        constructor
        · intro hlen
          exact hrec.1 (by omega)
        · intro hlen
          exact hrec.2 (by omega)

/-- The accumulator of the statement reader: emplacing atoms under consecutive
integer-string keys starting at `n` binds exactly those keys, in order. -/
theorem emplace_atoms_spec : ∀ (as : List atom) (n : Nat) (values : List (atom × atom)),
    (∀ j, n ≤ j → map_find (make_symbol (nat_to_string j)) values = none) →
    (∀ i (hi : i < as.length),
      map_find (make_symbol (nat_to_string (n + i))) (emplace_atoms values n as) =
        some (as.get ⟨i, hi⟩)) ∧
    (∀ k, (∀ i, i < as.length → k ≠ make_symbol (nat_to_string (n + i))) →
      map_find k (emplace_atoms values n as) = map_find k values) ∧
    (emplace_atoms values n as).length = values.length + as.length := by
  intro as
  induction as with
  | nil =>
    intro n values hfresh
    exact ⟨fun i hi => absurd hi (by simp), fun k _ => rfl, rfl⟩
  | cons a rest ih =>
    intro n values hfresh
    have hstep : emplace_atoms values n (a :: rest) =
        emplace_atoms (map_emplace (make_symbol (nat_to_string n)) a values) (n + 1) rest := rfl
    have hfresh1 : ∀ j, n + 1 ≤ j → map_find (make_symbol (nat_to_string j))
        (map_emplace (make_symbol (nat_to_string n)) a values) = none := by
      intro j hj
      rw [map_find_emplace_ne _ _ _ (fun h => by have := symbol_num_inj h; omega)]
      exact hfresh j (by omega)
    obtain ⟨h1, h2, h3⟩ := ih (n + 1) _ hfresh1
    refine ⟨?_, ?_, ?_⟩
    · intro i hi
      cases i with
      | zero =>
        rw [hstep, h2 _ (fun i2 hi2 h => by have := symbol_num_inj h; omega), Nat.add_zero]
        exact map_find_emplace_self _ _ _ (hfresh n le_rfl)
      | succ i =>
        rw [hstep]
        have h := h1 i (by simpa using hi)
        rw [show n + 1 + i = n + (i + 1) by omega] at h
        exact h
    · intro k hk
      rw [hstep, h2 k (fun i hi h => hk (i + 1) (by simpa using hi)
        (by rw [show n + (i + 1) = n + 1 + i by omega]; exact h))]
      exact map_find_emplace_ne _ _ _
        (by have h := hk 0 (by simp); rwa [Nat.add_zero] at h) _
    · rw [hstep, h3, map_emplace_length_of_none _ _ _ (hfresh n le_rfl)]
      simp only [List.length_cons]
      omega

/-- Claim C5: when the statement reader succeeds, a run that consumed exactly
one atom returns that atom itself (no length-1 Statement wrapper), and a run
that consumed two or more atoms returns a Statement whose keys
`"0", "1", …` are bound to the consumed atoms in read order (and whose length
is the number of consumed atoms). -/
theorem claim_C5 (fuel : Nat) (si si2 : List Char) (r : atom)
    (hrun : read_statement (fuel + 1) si = (si2, r))
    (hok : is_error r = false) :
    (∀ a, read_atom_list fuel si = [a] → r = a) ∧
    (2 ≤ (read_atom_list fuel si).length →
      is_statement r = true ∧
      len r = (read_atom_list fuel si).length ∧
      ∀ i (hi : i < (read_atom_list fuel si).length),
        lookup r (make_symbol (nat_to_string i)) =
          (read_atom_list fuel si).get ⟨i, hi⟩) := by
  rw [read_statement] at hrun
  have hspec := read_statement_loop_spec fuel [] 0 si si2 r hrun hok
  have hfresh : ∀ j, 0 ≤ j →
      map_find (make_symbol (nat_to_string j)) ([] : List (atom × atom)) = none :=
    fun j _ => rfl
  obtain ⟨hfind, hother, hlength⟩ := emplace_atoms_spec (read_atom_list fuel si) 0 [] hfresh
  constructor
  · intro a ha
    have h1 := hspec.1 (by rw [ha]; rfl)
    rw [ha] at h1
    rw [h1]
    show (map_find symbols.zero
      (map_emplace (make_symbol (nat_to_string 0)) a [])).getD (make_symbol "") = a
    rw [zero_eq_num, map_find_emplace_self (make_symbol (nat_to_string 0)) a []
      (show map_find (make_symbol (nat_to_string 0)) ([] : List (atom × atom)) = none from rfl)]
    rfl
  · intro hlen2
    have h2 := hspec.2 (by omega)
    have hfindtype : map_find symbols.type
        (emplace_atoms [] 0 (read_atom_list fuel si)) = none := by
      rw [hother symbols.type (fun i hi h => (symbol_num_ne_type (0 + i)) h.symm)]
      rfl
    set as := read_atom_list fuel si with has
    refine ⟨?_, ?_, ?_⟩
    · rw [h2]
      exact is_statement_make_statement hfindtype
    · rw [h2]
      refine len_eq ?_ ?_ ?_
      · intro i hi
        have hf := hfind i hi
        rw [Nat.zero_add] at hf
        rw [lookup_make_statement_found (symbol_num_ne_type i) hf]
        refine read_atom_list_no_error fuel si _ ?_
        rw [← has]
        exact as.get_mem _ _
      · have hf : map_find (make_symbol (nat_to_string as.length))
            (emplace_atoms [] 0 as) = none := by
          rw [hother _ (fun i hi h => by
            have h2 := symbol_num_inj h
            omega)]
          rfl
        exact lookup_make_statement_miss (symbol_num_ne_type _) hf
      · rw [make_statement_length hfindtype, hlength]
        simp
    · intro i hi
      have hf := hfind i hi
      rw [Nat.zero_add] at hf
      rw [h2, lookup_make_statement_found (symbol_num_ne_type i) hf]

/-- Witness for C5: reading the single symbol `x` yields the bare symbol;
reading `x y` yields a Statement of length 2 with elements `x`, `y` in
order. -/
theorem claim_C5_witness :
    (read_statement 20 "x".data).2 = make_symbol "x" ∧
    is_statement (read_statement 20 "x y".data).2 = true ∧
    len (read_statement 20 "x y".data).2 = 2 ∧
    lookup (read_statement 20 "x y".data).2 symbols.zero = make_symbol "x" ∧
    lookup (read_statement 20 "x y".data).2 (make_symbol "1") = make_symbol "y" := by
  have hx := claim_C5 19 "x".data (read_statement 20 "x".data).1
    (read_statement 20 "x".data).2 rfl (by decide)
  have hxy := claim_C5 19 "x y".data (read_statement 20 "x y".data).1
    (read_statement 20 "x y".data).2 rfl (by decide)
  obtain ⟨hst, hlen, hlook⟩ := hxy.2 (by decide)
  refine ⟨hx.1 (make_symbol "x") (by decide), hst, ?_, ?_, ?_⟩
  · rw [hlen]
    decide
  · have h := hlook 0 (by decide)
    rw [zero_eq_num]
    rw [h]
    decide
  · have h := hlook 1 (by decide)
    rw [show make_symbol (nat_to_string 1) = make_symbol "1" from rfl] at h
    rw [h]
    decide

/-! ### Duplicate keys in table literals -/

theorem is_table_make_table (ps : List (atom × atom)) : is_table (make_table ps) = true := rfl

theorem make_table_get_pairs (ps : List (atom × atom)) : (make_table ps).get_pairs = ps := rfl

/-- Counterexample to C1 as stated: reading `\x7ba = 1, a = 2\x7d` keeps the
first binding — `std::map::emplace` never overwrites — so the single entry for
`a` holds `1`, not the last-written `2`. -/
theorem claim_C1_counterexample :
    read (make_string "\x7ba = 1, a = 2\x7d") =
      make_table [(make_symbol "a", make_symbol "1")] ∧
    lookup (read (make_string "\x7ba = 1, a = 2\x7d")) (make_symbol "a") ≠
      make_symbol "2" := by
  exact ⟨by decide, by decide⟩

/-- Claim C1 (amended): a table literal with two entries for the same key
yields a table with exactly one entry for that key (all keys of the result are
pairwise distinct) whose value is the first-written one: once the entry loop
has bound a key, every later entry with an equivalent key is ignored, so the
binding survives to the final table unchanged. -/
theorem claim_C1 : ∀ (fuel : Nat) (values : List (atom × atom)) (has_sub : Bool)
    (si si2 : List Char) (r : atom) (k v : atom),
    map_sorted values → map_find k values = some v →
    read_table_loop fuel values has_sub si = (si2, r) → is_error r = false →
    is_table r = true ∧ map_find k r.get_pairs = some v ∧
    r.get_pairs.Pairwise (fun p q => p.1 ≠ q.1) := by
  intro fuel
  induction fuel with
  | zero =>
    intro values has_sub si si2 r k v hsort hfind h hr
    rw [read_table_loop] at h
    obtain ⟨h1, h2⟩ := pair_eq_iff.mp h
    rw [← h2, is_error_fuel_error] at hr
    cases hr
  | succ fuel ih =>
    intro values has_sub si si2 r k v hsort hfind h hr
    rw [read_table_loop] at h
    split at h
    · obtain ⟨h1, h2⟩ := pair_eq_iff.mp h
      rw [← h2, is_error_table_eof] at hr
      cases hr
    · rename_i c rest hws
      split at h
      · -- closing brace: the accumulated map becomes the table
        obtain ⟨h1, h2⟩ := pair_eq_iff.mp h
        rw [← h2]
        exact ⟨is_table_make_table values, by rw [make_table_get_pairs]; exact hfind,
          by rw [make_table_get_pairs]; exact map_sorted_keys_ne hsort⟩
      · split at h
        · -- read_atom failed: unexpected-character error
          obtain ⟨h1, h2⟩ := pair_eq_iff.mp h
          rw [← h2, is_error_make_error_nil] at hr
          cases hr
        · rename_i si3 key hra
          split at h
          · -- second substitution key: error
            obtain ⟨h1, h2⟩ := pair_eq_iff.mp h
            rw [← h2, is_error_make_error_nil] at hr
            cases hr
          · split at h
            · -- eof before the equals sign
              obtain ⟨h1, h2⟩ := pair_eq_iff.mp h
              rw [← h2, is_error_table_eof] at hr
              cases hr
            · rename_i c2 rest2 hws2
              split at h
              · -- equals sign present: the value statement is read
                split at h
                rename_i si4 value hrs
                split at h
                · -- error in the value propagates
                  rename_i he
                  obtain ⟨h1, h2⟩ := pair_eq_iff.mp h
                  rw [← h2, he] at hr
                  cases hr
                · rename_i he
                  split at h
                  · -- eof after the value
                    obtain ⟨h1, h2⟩ := pair_eq_iff.mp h
                    rw [← h2, is_error_table_eof] at hr
                    cases hr
                  · -- the entry is emplaced and the loop continues
                    refine ih _ _ _ _ _ k v (map_emplace_sorted key value values hsort) ?_ h hr
                    by_cases hkey : key = k
                    · rw [map_emplace_of_found key value values hsort
                        ⟨v, by rw [hkey]; exact hfind⟩]
                      exact hfind
                    · rw [map_find_emplace_ne k key value (fun hc => hkey hc.symm) values]
                      exact hfind
              · -- missing equals sign: error
                obtain ⟨h1, h2⟩ := pair_eq_iff.mp h
                rw [← h2, is_error_make_error_nil] at hr
                cases hr

/-- Witness for C1: continuing the entry loop of `\x7ba = 1, a = 2\x7d` right
after its first entry bound `a` to `1`, the duplicate entry `a = 2` is ignored
and the final table still maps `a` to `1`, with a single entry for `a`. -/
theorem claim_C1_witness :
    is_table (read_table_loop 30 [(make_symbol "a", make_symbol "1")] false
      (" a = 2\x7d".data)).2 = true ∧
    map_find (make_symbol "a")
      ((read_table_loop 30 [(make_symbol "a", make_symbol "1")] false
        (" a = 2\x7d".data)).2).get_pairs = some (make_symbol "1") := by
  have h := claim_C1 30 [(make_symbol "a", make_symbol "1")] false
    (" a = 2\x7d".data)
    (read_table_loop 30 [(make_symbol "a", make_symbol "1")] false (" a = 2\x7d".data)).1
    (read_table_loop 30 [(make_symbol "a", make_symbol "1")] false (" a = 2\x7d".data)).2
    (make_symbol "a") (make_symbol "1")
    (by simp [map_sorted]) (by decide) rfl (by decide)
  exact ⟨h.1, h.2.1⟩

/-! ### The equals sign and the comma in table entries -/

/-- Counterexample to C2 as stated: reading `\x7ba 1\x7d` — a table entry with
the `=` missing — does not succeed; it is a read error naming the offending
character and demanding the equals sign. -/
theorem claim_C2_counterexample :
    is_error (read (make_string "\x7ba 1\x7d")) = true ∧
    read (make_string "\x7ba 1\x7d") = make_error symbols.read_error
      "Unexpected character '1' (expected '=')" [] := by
  exact ⟨by decide, by decide⟩

/-- Claim C2 (amended): in the table grammar, a missing `=` between a key and
its value is not tolerated — after a key, the next non-whitespace character
must be `=` or the entry loop returns a read error naming it.  A missing `,`
between entries is not tolerated either, since the following key is consumed
into the preceding value statement and reading then fails; only a trailing
`,` before the closing brace is optional. -/
theorem claim_C2 :
    (∀ (fuel : Nat) (values : List (atom × atom)) (has_sub : Bool)
      (si si3 : List Char) (c : Char) (rest : List Char) (key : atom)
      (c2 : Char) (rest2 : List Char),
      skip_ws si = c :: rest → c ≠ brace_close →
      read_atom fuel (c :: rest) = (si3, some key) →
      (is_substitution key && has_sub) = false →
      skip_ws si3 = c2 :: rest2 → c2 ≠ '=' →
      read_table_loop (fuel + 1) values has_sub si =
        (c2 :: rest2, make_error symbols.read_error
          ("Unexpected character '" ++ String.singleton c2 ++ "' (expected '=')") [])) ∧
    (read (make_string "\x7ba = 1,\x7d") = read (make_string "\x7ba = 1\x7d") ∧
      is_table (read (make_string "\x7ba = 1\x7d")) = true) ∧
    is_error (read (make_string "\x7ba = 1 b = 2\x7d")) = true := by
  refine ⟨?_, ⟨by decide, by decide⟩, by decide⟩
  intro fuel values has_sub si si3 c rest key c2 rest2 hws hc hra hsub hws2 hc2
  rw [read_table_loop]
  simp only [hws]
  rw [if_neg hc]
  simp only [hra]
  rw [if_neg (by simp [hsub])]
  simp only [hws2]
  rw [if_neg hc2]

/-- Witness for C2: the entry loop on `a 1\x7d` reads the key `a` and then
meets `1` where `=` was required, producing the read error. -/
theorem claim_C2_witness :
    read_table_loop 30 [] false ("a 1\x7d".data) =
      ("1\x7d".data, make_error symbols.read_error
        "Unexpected character '1' (expected '=')" []) := by
  have h := claim_C2.1 29 [] false ("a 1\x7d".data) (" 1\x7d".data) 'a' (" 1\x7d".data)
    (make_symbol "a") '1' ("\x7d".data)
    (by decide) (by decide) (by decide) (by decide) (by decide) (by decide)
  exact h

end Reduct
